import Mathlib

/-!
Verification development for the localethscan UI argument pipeline
(src/ui/src/App.tsx): the ABI-driven dynamic form engine (tuple field
flattening, leaf draft storage, value reconstruction, call argument
coercion), the bulk import parser and the workspace session loader.

JavaScript runtime values flowing through this pipeline are modelled by
the inductive type Value below.  JavaScript numbers are modelled as
integers (the pipeline only produces integral numerals; fractional JSON
literals are treated as parse failures by the JSON model, a documented
restriction).  Machine-level concerns do not arise: JS BigInt is
arbitrary precision, modelled by Int.
-/

set_option maxRecDepth 16384

namespace LocalEthScan

/-- Runtime JS value as used by the argument pipeline: undefined, null,
booleans, (integral) numbers, strings, BigInts, arrays and plain objects. -/
inductive Value where
  | vUndefined
  | vNull
  | vBool (b : Bool)
  | vNum (n : Int)
  | vStr (s : String)
  | vBigInt (n : Int)
  | vArr (elems : List Value)
  | vObj (fields : List (String × Value))
deriving Repr

/-- ABI parameter descriptor: the shape of viem AbiParameter as consumed by
App.tsx.  The code only ever reads components through the guarded access
pattern (components present, defaulting to the empty list), so absent
components are modelled as the empty list. -/
inductive AbiParam where
  | mk (type : String) (name : String) (components : List AbiParam)
deriving Repr

def AbiParam.type : AbiParam → String
  | .mk t _ _ => t

def AbiParam.name : AbiParam → String
  | .mk _ n _ => n

def AbiParam.components : AbiParam → List AbiParam
  | .mk _ _ cs => cs

/-! ### JS string primitives (models of the ECMAScript operations used) -/

/-- Whitespace recognised by String.prototype.trim (ASCII portion: space,
tab, line feed, vertical tab, form feed, carriage return). -/
def jsWhitespaceChar (c : Char) : Bool :=
  decide (c.toNat = 32 ∨ c.toNat = 9 ∨ c.toNat = 10 ∨ c.toNat = 13 ∨
    c.toNat = 11 ∨ c.toNat = 12)

/-- Model of String.prototype.trim. -/
def jsTrim (s : String) : String :=
  ⟨((s.data.dropWhile jsWhitespaceChar).reverse.dropWhile jsWhitespaceChar).reverse⟩

/-- Model of String.prototype.toLowerCase on the ASCII strings this app
handles; Char.toLower is exactly the ASCII lowercasing. -/
def jsToLower (s : String) : String :=
  ⟨s.data.map Char.toLower⟩

/-- Model of String.prototype.startsWith. -/
def jsStartsWith (s pre : String) : Bool :=
  List.isPrefixOf pre.data s.data

/-- Model of String.prototype.endsWith. -/
def jsEndsWith (s suf : String) : Bool :=
  List.isSuffixOf suf.data s.data

/-- Model of s.slice(0, -2): drop the last two characters. -/
def jsSliceMinusTwo (s : String) : String :=
  ⟨s.data.dropLast.dropLast⟩

/-- normalizeAddress from App.tsx: value.trim().toLowerCase(). -/
def normalizeAddress (value : String) : String :=
  jsToLower (jsTrim value)

/-- Hex digit per the address regex character class [a-fA-F0-9]. -/
def isHexDigitChar (c : Char) : Bool :=
  decide ((48 ≤ c.toNat ∧ c.toNat ≤ 57) ∨ (97 ≤ c.toNat ∧ c.toNat ≤ 102) ∨
    (65 ≤ c.toNat ∧ c.toNat ≤ 70))

/-- Modelled from the spec: the external address-shape check
(viem isAddress with strict set to false), stated in the spec as a
case-insensitive 40-hex-digit body with 0x prefix and no checksum
enforcement, i.e. the regex 0x followed by exactly 40 of [a-fA-F0-9]. -/
def isAddressLike (value : String) : Bool :=
  match value.data with
  | '0' :: 'x' :: rest => rest.length == 40 && rest.all isHexDigitChar
  | _ => false

/-! ### JS abstract operations: ToString and BigInt conversion -/

/-- Decimal digit 0-9. -/
def isDecDigitChar (c : Char) : Bool :=
  decide (48 ≤ c.toNat ∧ c.toNat ≤ 57)

/-- Octal digit 0-7. -/
def isOctDigitChar (c : Char) : Bool :=
  decide (48 ≤ c.toNat ∧ c.toNat ≤ 55)

/-- Binary digit 0-1. -/
def isBinDigitChar (c : Char) : Bool :=
  decide (48 ≤ c.toNat ∧ c.toNat ≤ 49)

/-- Numeric value of a hex digit character. -/
def digitValNat (c : Char) : Nat :=
  if c.toNat ≤ 57 then c.toNat - 48
  else if c.toNat ≤ 70 then c.toNat - 55
  else c.toNat - 87

mutual

/-- Model of the JS ToString abstract operation on pipeline values
(arrays stringify by joining their elements with commas, plain objects
stringify as the usual object placeholder). -/
def jsToString : Value → String
  | .vUndefined => "undefined"
  | .vNull => "null"
  | .vBool b => if b then "true" else "false"
  | .vNum n => toString n
  | .vStr s => s
  | .vBigInt n => toString n
  | .vArr xs => jsArrayElemsToString xs
  | .vObj _ => "[object Object]"

/-- Array.prototype.join with separator comma; null and undefined elements
become empty strings. -/
def jsArrayElemsToString : List Value → String
  | [] => ""
  | [.vUndefined] => ""
  | [.vNull] => ""
  | [x] => jsToString x
  | .vUndefined :: xs => "," ++ jsArrayElemsToString xs
  | .vNull :: xs => "," ++ jsArrayElemsToString xs
  | x :: xs => jsToString x ++ "," ++ jsArrayElemsToString xs

end

/-- Conversion failure message for BigInt (the concrete SyntaxError text is
engine specific; only success/failure is relied upon). -/
def bigIntErrMsg : String := "Cannot convert the value to a BigInt."

/-- Fold a digit list into its numeric value for a given radix. -/
def digitsFold (radix : Nat) (l : List Char) : Nat :=
  l.foldl (fun a c => a * radix + digitValNat c) 0

/-- Parse a non-empty all-digits run for the given radix. -/
def parseDigitsRadix (radix : Nat) (isD : Char → Bool) (l : List Char) :
    Except String Int :=
  if l = [] then .error bigIntErrMsg
  else if l.all isD then .ok (Int.ofNat (digitsFold radix l))
  else .error bigIntErrMsg

/-- Model of the ECMAScript StringToBigInt operation: surrounding
whitespace is stripped, the empty remainder is 0, and otherwise the text
must be a non-decimal 0x/0o/0b literal or an optionally signed run of
decimal digits; anything else is a SyntaxError. -/
def strToBigInt (s : String) : Except String Int :=
  match (jsTrim s).data with
  | [] => .ok 0
  | '0' :: 'x' :: rest => parseDigitsRadix 16 isHexDigitChar rest
  | '0' :: 'X' :: rest => parseDigitsRadix 16 isHexDigitChar rest
  | '0' :: 'o' :: rest => parseDigitsRadix 8 isOctDigitChar rest
  | '0' :: 'O' :: rest => parseDigitsRadix 8 isOctDigitChar rest
  | '0' :: 'b' :: rest => parseDigitsRadix 2 isBinDigitChar rest
  | '0' :: 'B' :: rest => parseDigitsRadix 2 isBinDigitChar rest
  | '+' :: rest => parseDigitsRadix 10 isDecDigitChar rest
  | '-' :: rest => (parseDigitsRadix 10 isDecDigitChar rest).map (fun n => -n)
  | l => parseDigitsRadix 10 isDecDigitChar l

/-- Model of the JS BigInt() conversion as applied by coerceAbiValue:
BigInts pass through, integral numbers convert, booleans become 0/1,
strings go through StringToBigInt, null/undefined are TypeErrors, and
objects/arrays are first converted by ToString. -/
def jsBigInt : Value → Except String Int
  | .vBigInt n => .ok n
  | .vNum n => .ok n
  | .vBool b => .ok (if b then 1 else 0)
  | .vStr s => strToBigInt s
  | .vNull => .error bigIntErrMsg
  | .vUndefined => .error bigIntErrMsg
  | .vArr xs => strToBigInt (jsArrayElemsToString xs)
  | .vObj _ => strToBigInt "[object Object]"

/-! ### JSON.parse model

A recursive-descent parser over the character list, fuelled so that every
definition is structurally recursive and kernel-computable.  The fuel
supplied by jsonParse is generous (one unit per character plus one), and
each nesting level consumes at least one character, so well-formed inputs
never exhaust it.  Restrictions relative to full JSON, documented here:
number literals are integral (no fraction/exponent) and string escapes
cover the common single-character escapes (no \u escapes); inputs using
those features are treated as parse failures. -/

/-- JSON whitespace: space, tab, line feed, carriage return. -/
def jsonWsChar (c : Char) : Bool :=
  c == ' ' || c == '\t' || c == '\n' || c == '\r'

/-- Single-character JSON string escapes: the three self-escapes and the
five control-character short forms (line feed, tab, carriage return,
backspace, form feed). -/
def jsonEscChar (e : Char) : Option Char :=
  if e = '"' ∨ e = '\\' ∨ e = '/' then some e
  else if e = 'n' then some (Char.ofNat 10)
  else if e = 't' then some (Char.ofNat 9)
  else if e = 'r' then some (Char.ofNat 13)
  else if e = 'b' then some (Char.ofNat 8)
  else if e = 'f' then some (Char.ofNat 12)
  else none

/-- Parse the body of a JSON string after the opening quote, returning the
decoded characters and the remainder after the closing quote. -/
def parseStringChars : List Char → Option (List Char × List Char)
  | [] => none
  | '"' :: rest => some ([], rest)
  | '\\' :: e :: rest => do
    let c ← jsonEscChar e
    let (cs, r) ← parseStringChars rest
    some (c :: cs, r)
  | c :: rest => do
    let (cs, r) ← parseStringChars rest
    some (c :: cs, r)

/-- Parse a non-empty run of decimal digits as a Nat, rejecting a following
fraction or exponent marker. -/
def parseJsonNat (l : List Char) : Option (Nat × List Char) :=
  let ds := l.takeWhile isDecDigitChar
  if ds = [] then none
  else
    match l.drop ds.length with
    | '.' :: _ => none
    | 'e' :: _ => none
    | 'E' :: _ => none
    | rest => some (digitsFold 10 ds, rest)

/-- Insert or overwrite a field, preserving first-insertion order (JS object
semantics for duplicate keys: the later value wins, position kept). -/
def setField : List (String × Value) → String → Value → List (String × Value)
  | [], k, v => [(k, v)]
  | (k0, v0) :: rest, k, v =>
    if k0 = k then (k0, v) :: rest else (k0, v0) :: setField rest k v

/-- Parse the elements of a non-empty JSON array, given a parser for one
value; acc holds the elements already parsed. -/
def parseJsonElemsAux (g : List Char → Option (Value × List Char)) :
    Nat → List Value → List Char → Option (Value × List Char)
  | 0, _, _ => none
  | fuel+1, acc, cs => do
    let (v, r) ← g cs
    match r.dropWhile jsonWsChar with
    | ',' :: r2 => parseJsonElemsAux g fuel (acc ++ [v]) r2
    | ']' :: r2 => some (.vArr (acc ++ [v]), r2)
    | _ => none

/-- Parse the fields of a non-empty JSON object, given a parser for one
value; acc holds the fields already parsed. -/
def parseJsonFieldsAux (g : List Char → Option (Value × List Char)) :
    Nat → List (String × Value) → List Char → Option (Value × List Char)
  | 0, _, _ => none
  | fuel+1, acc, cs =>
    match cs.dropWhile jsonWsChar with
    | '"' :: rest => do
      let (k, r) ← parseStringChars rest
      match r.dropWhile jsonWsChar with
      | ':' :: r2 => do
        let (v, r3) ← g r2
        let acc2 := setField acc ⟨k⟩ v
        match r3.dropWhile jsonWsChar with
        | ',' :: r4 => parseJsonFieldsAux g fuel acc2 r4
        | '}' :: r4 => some (.vObj acc2, r4)
        | _ => none
      | _ => none
    | _ => none

/-- Parse one JSON value, returning it with the unconsumed remainder. -/
def parseJsonValue : Nat → List Char → Option (Value × List Char)
  | 0, _ => none
  | fuel+1, cs0 =>
    match cs0.dropWhile jsonWsChar with
    | '{' :: rest =>
      (match rest.dropWhile jsonWsChar with
       | '}' :: r2 => some (.vObj [], r2)
       | _ => parseJsonFieldsAux (parseJsonValue fuel) fuel [] rest)
    | '[' :: rest =>
      (match rest.dropWhile jsonWsChar with
       | ']' :: r2 => some (.vArr [], r2)
       | _ => parseJsonElemsAux (parseJsonValue fuel) fuel [] (rest.dropWhile jsonWsChar))
    | '"' :: rest => (parseStringChars rest).map (fun p => (.vStr ⟨p.1⟩, p.2))
    | 't' :: rest =>
      if List.isPrefixOf ['r', 'u', 'e'] rest then some (.vBool true, rest.drop 3) else none
    | 'f' :: rest =>
      if List.isPrefixOf ['a', 'l', 's', 'e'] rest then some (.vBool false, rest.drop 4) else none
    | 'n' :: rest =>
      if List.isPrefixOf ['u', 'l', 'l'] rest then some (.vNull, rest.drop 3) else none
    | '-' :: rest => (parseJsonNat rest).map (fun p => (.vNum (-(p.1 : Int)), p.2))
    | other => (parseJsonNat other).map (fun p => (.vNum (p.1 : Int), p.2))

/-- Model of JSON.parse: parse one value and require only whitespace to
follow; returns none where JSON.parse would throw a SyntaxError. -/
def jsonParse (s : String) : Option Value :=
  match parseJsonValue (s.length + 1) s.data with
  | some (v, rest) => if rest.dropWhile jsonWsChar = [] then some v else none
  | none => none

/-! ### JSON.stringify model -/

/-- Escape one character inside a JSON string literal (the quote and
backslash self-escapes plus the common control short forms). -/
def jsonEscapeChar (c : Char) : List Char :=
  if c = '"' ∨ c = '\\' then ['\\', c]
  else if c = Char.ofNat 10 then ['\\', 'n']
  else if c = Char.ofNat 9 then ['\\', 't']
  else if c = Char.ofNat 13 then ['\\', 'r']
  else [c]

/-- Quote a string as a JSON string literal. -/
def jsonQuote (s : String) : String :=
  "\"" ++ ⟨s.data.flatMap jsonEscapeChar⟩ ++ "\""

/-- The indentation prefix: depth times space many spaces. -/
def jsonIndent (space depth : Nat) : String :=
  ⟨List.replicate (space * depth) ' '⟩

mutual

/-- Model of JSON.stringify(v, null, space) at a given depth.  space = 0 is
the compact form; a positive space pretty-prints the way the app does with
space = 2.  The pipeline only stringifies values produced by JSON.parse or
draft reconstruction, so undefined never occurs at the top level; inside
arrays it serialises as null, as in JS. -/
def jsonStringifyAt (space depth : Nat) : Value → String
  | .vUndefined => "null"
  | .vNull => "null"
  | .vBool b => if b then "true" else "false"
  | .vNum n => toString n
  | .vBigInt n => toString n
  | .vStr s => jsonQuote s
  | .vArr [] => "[]"
  | .vArr (x :: xs) =>
    if space = 0 then "[" ++ jsonStringifyItems space depth (x :: xs) ++ "]"
    else
      "[\n" ++ jsonIndent space (depth+1) ++ jsonStringifyItems space (depth+1) (x :: xs) ++
        "\n" ++ jsonIndent space depth ++ "]"
  | .vObj [] => "\x7b\x7d"
  | .vObj (f :: fs) =>
    if space = 0 then "\x7b" ++ jsonStringifyFields space depth (f :: fs) ++ "\x7d"
    else
      "\x7b\n" ++ jsonIndent space (depth+1) ++ jsonStringifyFields space (depth+1) (f :: fs) ++
        "\n" ++ jsonIndent space depth ++ "\x7d"

/-- Serialise array items, separated by comma (plus newline and indent when
pretty-printing). -/
def jsonStringifyItems (space depth : Nat) : List Value → String
  | [] => ""
  | [x] => jsonStringifyAt space depth x
  | x :: xs =>
    jsonStringifyAt space depth x ++
      (if space = 0 then "," else ",\n" ++ jsonIndent space depth) ++
      jsonStringifyItems space depth xs

/-- Serialise object fields. -/
def jsonStringifyFields (space depth : Nat) : List (String × Value) → String
  | [] => ""
  | [(k, v)] => jsonQuote k ++ (if space = 0 then ":" else ": ") ++ jsonStringifyAt space depth v
  | (k, v) :: fs =>
    jsonQuote k ++ (if space = 0 then ":" else ": ") ++ jsonStringifyAt space depth v ++
      (if space = 0 then "," else ",\n" ++ jsonIndent space depth) ++
      jsonStringifyFields space depth fs

end

/-- JSON.stringify(v): the compact serialisation. -/
def jsonStringify (v : Value) : String := jsonStringifyAt 0 0 v

/-- JSON.stringify(v, null, 2): the pretty serialisation used for abiText. -/
def jsonStringifyPretty (v : Value) : String := jsonStringifyAt 2 0 v

/-! ### Parameter size measure

The coercion/flattening/reconstruction functions recurse along the
parameter descriptor: into a component for tuple types, or into the same
descriptor with the array suffix stripped for array types.  Both strictly
decrease psize (type length plus one, plus the recursive sizes of the
components), so psize is a sound fuel bound; the fuelled definitions below
are therefore total and kernel-computable, and the psize-fuel instances
are proven equal to any larger-fuel instance. -/

mutual

def psize : AbiParam → Nat
  | .mk t _ comps => t.length + 1 + psizeList comps

def psizeList : List AbiParam → Nat
  | [] => 0
  | p :: ps => psize p + psizeList ps

end

/-! ### coerceAbiValue (App.tsx lines 120-148) -/

/-- Element access value[i]: out-of-range yields undefined. -/
def jsIndex (xs : List Value) (i : Nat) : Value :=
  xs.getD i .vUndefined

/-- Property access rec[k] on an object: absent keys yield undefined. -/
def jsField (fields : List (String × Value)) (k : String) : Value :=
  match fields.find? (fun f => f.1 == k) with
  | some f => f.2
  | none => .vUndefined

/-- The child descriptor for an array type: the spread copy with the type
suffix stripped, keeping name and components. -/
def childParam (param : AbiParam) : AbiParam :=
  .mk (jsSliceMinusTwo param.type) param.name param.components

/-- value.map over an Except-producing function: the first failure
propagates, as a thrown exception does in Array.prototype.map. -/
def exceptMapList (g : Value → Except String Value) :
    List Value → Except String (List Value)
  | [] => .ok []
  | x :: r => do
    let a ← g x
    let as ← exceptMapList g r
    .ok (a :: as)

/-- comps.map((c, i) => coerce(c, value[i])) for the positional tuple
branch. -/
def coerceTuplePositional (g : AbiParam → Value → Except String Value)
    (xs : List Value) : Nat → List AbiParam → Except String (List Value)
  | _, [] => .ok []
  | i, c :: cs => do
    let a ← g c (jsIndex xs i)
    let r ← coerceTuplePositional g xs (i+1) cs
    .ok (a :: r)

/-- comps.map((c) => coerce(c, rec[c.name])) for the keyed tuple branch. -/
def coerceTupleNamed (g : AbiParam → Value → Except String Value)
    (fields : List (String × Value)) : List AbiParam → Except String (List Value)
  | [] => .ok []
  | c :: cs => do
    let a ← g c (jsField fields c.name)
    let r ← coerceTupleNamed g fields cs
    .ok (a :: r)

/-- One unfolding of coerceAbiValue, with g standing for the recursive
call.  This is a direct transcription of the function body: array types
first, then tuple types (positional array or keyed object), then
integer, bool and address scalars, with everything else passed through. -/
def coerceStep (g : AbiParam → Value → Except String Value)
    (param : AbiParam) (value : Value) : Except String Value :=
  let type := param.type
  if jsEndsWith type "[]" then
    match value with
    | .vArr xs => (exceptMapList (g (childParam param)) xs).map .vArr
    | _ => .error ("Expected JSON array for " ++ type ++ ".")
  else if jsStartsWith type "tuple" then
    match value with
    | .vArr xs => (coerceTuplePositional g xs 0 param.components).map .vArr
    | .vObj fields => (coerceTupleNamed g fields param.components).map .vArr
    | _ => .error ("Expected tuple JSON for " ++ type ++ ".")
  else if jsStartsWith type "uint" || jsStartsWith type "int" then
    (jsBigInt value).map .vBigInt
  else if type = "bool" then
    match value with
    | .vBool b => .ok (.vBool b)
    | .vStr s =>
      if jsToLower s = "true" then .ok (.vBool true)
      else if jsToLower s = "false" then .ok (.vBool false)
      else .error "Expected true/false."
    | _ => .error "Expected true/false."
  else if type = "address" then
    match value with
    | .vStr s =>
      if isAddressLike s then .ok (.vStr (normalizeAddress s))
      else .error "Invalid address input."
    | _ => .error "Invalid address input."
  else .ok value

/-- Sentinel for fuel exhaustion; proven unreachable for the psize fuel
bound (coerceFuel_eq below), and distinct from every source error text. -/
def fuelErrMsg : String := "model fuel exhausted"

/-- Fuelled coercion; structurally recursive on the fuel. -/
def coerceFuel : Nat → AbiParam → Value → Except String Value
  | 0, _, _ => .error fuelErrMsg
  | fuel+1, p, v => coerceStep (coerceFuel fuel) p v

/-- coerceAbiValue from App.tsx: recursive coercion of a JSON-shaped value
against an ABI parameter descriptor. -/
def coerceAbiValue (param : AbiParam) (value : Value) : Except String Value :=
  coerceFuel (psize param) param value

/-! ### Tuple field flattening and draft reconstruction
(App.tsx lines 170-226) -/

/-- isExpandableTuple from App.tsx. -/
def isExpandableTuple (param : AbiParam) : Bool :=
  jsStartsWith param.type "tuple" && !(jsEndsWith param.type "[]")

/-- One flattened editable leaf field. -/
structure TupleField where
  path : List Nat
  pathText : String
  label : String
  param : AbiParam
deriving Repr

/-- path.join(".") over the decimal renderings of the indices. -/
def pathTextOf : List Nat → String
  | [] => ""
  | [i] => Nat.repr i
  | i :: rest => Nat.repr i ++ "." ++ pathTextOf rest

/-- The draft store key argIndex:pathText (template literal in the
source). -/
def draftKey (argIndex : Nat) (pathText : String) : String :=
  Nat.repr argIndex ++ ":" ++ pathText

/-- JS string-or fallback: component.name || fallback (the empty string is
the only falsy string). -/
def jsOrName (s fallback : String) : String :=
  if s = "" then fallback else s

/-- components.flatMap((component, idx) => collect(component, label.name,
path ++ [idx])) with g standing for the recursive call. -/
def collectChildren (g : AbiParam → String → List Nat → List TupleField) :
    List AbiParam → String → List Nat → Nat → List TupleField
  | [], _, _, _ => []
  | c :: cs, label, path, idx =>
    g c (label ++ "." ++ jsOrName c.name ("item" ++ Nat.repr idx)) (path ++ [idx]) ++
      collectChildren g cs label path (idx+1)

/-- One unfolding of collectTupleFields. -/
def collectStep (g : AbiParam → String → List Nat → List TupleField)
    (param : AbiParam) (label : String) (path : List Nat) : List TupleField :=
  if isExpandableTuple param then
    collectChildren g param.components label path 0
  else
    [{ path := path, pathText := pathTextOf path, label := label, param := param }]

/-- Fuelled flattening; structurally recursive on the fuel. -/
def collectFuel : Nat → AbiParam → String → List Nat → List TupleField
  | 0, _, _, _ => []
  | fuel+1, p, label, path => collectStep (collectFuel fuel) p label path

/-- collectTupleFields from App.tsx: expand a (possibly nested) expandable
tuple into its ordered list of leaf fields. -/
def collectTupleFields (param : AbiParam) (label : String)
    (path : List Nat) : List TupleField :=
  collectFuel (psize param) param label path

/-- parseTupleLeafDraft from App.tsx: empty trimmed text is the empty
string; array/tuple-typed leaves attempt JSON.parse of the trimmed text
and fall back to the raw string on parse failure; scalar leaves return the
raw string unchanged. -/
def parseTupleLeafDraft (param : AbiParam) (raw : String) : Value :=
  let trimmed := jsTrim raw
  if trimmed = "" then .vStr ""
  else if jsEndsWith param.type "[]" || jsStartsWith param.type "tuple" then
    match jsonParse trimmed with
    | some v => v
    | none => .vStr raw
  else .vStr raw

/-- components.map((component, idx) => f(idx, component)) rendered as a
first-order recursion carrying the running index. -/
def mapWithIdx {α : Type} (f : Nat → AbiParam → α) : Nat → List AbiParam → List α
  | _, [] => []
  | i, c :: cs => f i c :: mapWithIdx f (i+1) cs

/-- One unfolding of buildTupleValueFromDraft.  The draft store is the
record lookup draft[key] ?? "" and is modelled as a total function from
keys to text, absent keys mapping to the empty string. -/
def buildStep (g : AbiParam → List Nat → Value) (draft : String → String)
    (argIndex : Nat) (param : AbiParam) (path : List Nat) : Value :=
  if isExpandableTuple param then
    .vArr (mapWithIdx (fun idx component => g component (path ++ [idx])) 0 param.components)
  else
    parseTupleLeafDraft param (draft (draftKey argIndex (pathTextOf path)))

/-- Fuelled reconstruction; structurally recursive on the fuel. -/
def buildFuel : Nat → (String → String) → Nat → AbiParam → List Nat → Value
  | 0, _, _, _, _ => .vUndefined
  | fuel+1, d, i, p, path => buildStep (fun c pth => buildFuel fuel d i c pth) d i p path

/-- buildTupleValueFromDraft from App.tsx: rebuild the nested positional
value of an expandable tuple argument from the leaf draft store. -/
def buildTupleValueFromDraft (param : AbiParam) (argIndex : Nat)
    (draft : String → String) (path : List Nat) : Value :=
  buildFuel (psize param) draft argIndex param path

/-! ### Workspace entries, bulk import (App.tsx lines 277-296, 477-495)
and session loading (lines 246-275) -/

/-- Default RPC endpoint. -/
def DEFAULT_RPC : String := "http://127.0.0.1:8545"

/-- A registered contract.  The id field of the source (toId(): wall clock
plus Math.random) is nondeterministic fresh-name generation and is not
modelled; no property below concerns ids.  name and abiText are carried as
runtime values: the TS types say string, but loadSession can store
arbitrary persisted values in them at runtime. -/
structure ContractEntry where
  name : Value
  address : String
  abiText : Value
  abi : Value
deriving Repr

/-- Property access item.k: throws a TypeError on null/undefined (the
error result), yields the field or undefined on objects, and undefined on
other primitives. -/
def jsGetProp (v : Value) (k : String) : Except String Value :=
  match v with
  | .vNull => .error "TypeError: cannot read properties of null"
  | .vUndefined => .error "TypeError: cannot read properties of undefined"
  | .vObj fields => .ok (jsField fields k)
  | _ => .ok .vUndefined

/-- Optional chaining v?.k: null/undefined give undefined instead of
throwing. -/
def jsOptProp (v : Value) (k : String) : Value :=
  match v with
  | .vObj fields => jsField fields k
  | _ => .vUndefined

/-- Nullish coalescing v ?? fallback. -/
def jsNullish (v fallback : Value) : Value :=
  match v with
  | .vNull => fallback
  | .vUndefined => fallback
  | _ => v

/-- JS truthiness of a pipeline value. -/
def jsTruthy : Value → Bool
  | .vUndefined => false
  | .vNull => false
  | .vBool b => b
  | .vNum n => n != 0
  | .vStr s => s != ""
  | .vBigInt n => n != 0
  | .vArr _ => true
  | .vObj _ => true

/-- JS value-or fallback v || fallback. -/
def jsOr (v fallback : Value) : Value :=
  if jsTruthy v then v else fallback

/-- parseAbiText from App.tsx.  JSON.parse coerces its argument with
ToString, so non-string abiText values are stringified first; the parsed
document must be an array or an object with an abi array. -/
def parseAbiText (input : Value) : Except String Value :=
  match jsonParse (jsToString input) with
  | none => .error "SyntaxError: JSON parse failed"
  | some parsed =>
    let maybeAbi := match parsed with
      | .vArr xs => Value.vArr xs
      | _ => jsOptProp parsed "abi"
    match maybeAbi with
    | .vArr xs => .ok (.vArr xs)
    | _ => .error "ABI must be an array or object with abi array."

/-- fileName.replace of a trailing .json (case-insensitive) with the empty
string. -/
def stripJsonSuffix (s : String) : String :=
  if jsEndsWith (jsToLower s) ".json" then ⟨s.data.take (s.data.length - 5)⟩ else s

/-- parseOne inside parseImportFile: validate the address shape, require
an abi array, and take the trimmed non-empty name or the fallback. -/
def parseImportOne (raw : Value) (fallbackName : String) :
    Except String ContractEntry := do
  let addressRaw ← jsGetProp raw "address"
  let address := normalizeAddress (jsToString (jsNullish addressRaw (.vStr "")))
  if !isAddressLike address then .error "Invalid address in import file."
  else do
    let abiV ← jsGetProp raw "abi"
    match abiV with
    | .vArr abi => do
      let nameV ← jsGetProp raw "name"
      let name := match nameV with
        | .vStr s => if jsTrim s != "" then jsTrim s else fallbackName
        | _ => fallbackName
      .ok { name := .vStr name, address := address,
            abiText := .vStr (jsonStringifyPretty (.vArr abi)), abi := .vArr abi }
    | _ => .error "Import object needs abi array."

/-- items.map((item, idx) => parseOne(item, base-(idx+1))): the first
thrown error propagates. -/
def parseImportList (base : String) : Nat → List Value →
    Except String (List ContractEntry)
  | _, [] => .ok []
  | idx, item :: rest => do
    let e ← parseImportOne item (base ++ "-" ++ Nat.repr (idx + 1))
    let es ← parseImportList base (idx + 1) rest
    .ok (e :: es)

/-- parseImportFile from App.tsx: accepts a top-level array of contract
objects, an object with a contracts array, or a single contract object;
anything else is a file-level error naming the file. -/
def parseImportFile (text : String) (fileName : String) :
    Except String (List ContractEntry) :=
  match jsonParse text with
  | none => .error "SyntaxError: JSON parse failed"
  | some parsed =>
    let base := stripJsonSuffix fileName
    match parsed with
    | .vArr items => parseImportList base 0 items
    | .vObj fields =>
      (match jsField fields "contracts" with
       | .vArr items => parseImportList base 0 items
       | _ => (parseImportOne (.vObj fields) base).map (fun e => [e]))
    | _ => .error (fileName ++ ": unsupported JSON format.")

/-- One file chosen in the bulk import picker. -/
structure ImportFile where
  fileName : String
  text : String

/-- Sequential parse of every selected file inside the single try block of
onImportFiles: the first failing file aborts the whole loop, discarding
entries already parsed. -/
def importAllFiles : List ImportFile → Except String (List ContractEntry)
  | [] => .ok []
  | f :: fs => do
    let es ← parseImportFile f.text f.fileName
    let rest ← importAllFiles fs
    .ok (es ++ rest)

/-- onImportFiles from App.tsx, as a function from the previous contract
list to the next contract list plus the manager error message (none when
the import succeeded).  On success the imported entries are appended; on
any error the contract list is left unchanged and the error is shown. -/
def onImportFiles (prev : List ContractEntry) (files : List ImportFile) :
    List ContractEntry × Option String :=
  match importAllFiles files with
  | .ok imported =>
    if imported.length = 0 then (prev, some "No contracts imported.")
    else (prev ++ imported, none)
  | .error e => (prev, some e)

/-- Persisted session state (the slice loadSession returns). -/
structure SessionState where
  rpcUrl : String
  darkMode : Bool
  collapsed : Value
  contracts : List ContractEntry
deriving Repr

/-- The default workspace state. -/
def defaultSession : SessionState :=
  { rpcUrl := DEFAULT_RPC, darkMode := false, collapsed := .vObj [], contracts := [] }

/-- One iteration of the loadSession contract loop (its inner try):
normalizeAddress throws on a non-string address (skip), a failing address
shape check skips via continue, and a failing parseAbiText throws (skip).
Every skip returns none; a kept entry applies the name fallback. -/
def parseContractItem (item : Value) : Option ContractEntry :=
  match jsGetProp item "address" with
  | .error _ => none
  | .ok addrV =>
    match addrV with
    | .vStr a =>
      let address := normalizeAddress a
      if isAddressLike address then
        let abiTextV := jsOptProp item "abiText"
        match parseAbiText abiTextV with
        | .ok abi =>
          some { name := jsOr (jsOptProp item "name") (.vStr "contract"),
                 address := address, abiText := abiTextV, abi := abi }
        | .error _ => none
      else none
    | _ => none

/-- Iterability for the for-of loop over parsed.contracts ?? []: arrays
iterate their elements, strings iterate their characters, everything else
throws (none). -/
def jsIterItems : Value → Option (List Value)
  | .vArr l => some l
  | .vStr s => some (s.data.map (fun c => .vStr ⟨[c]⟩))
  | _ => none

/-- The body of loadSession after a successful JSON.parse.  A throw while
reading parsed.contracts (null document) or iterating a non-iterable
contracts value reaches the outer catch and yields the default state. -/
def loadSessionParsed (parsed : Value) : SessionState :=
  match jsGetProp parsed "contracts" with
  | .error _ => defaultSession
  | .ok contractsV =>
    match jsIterItems (jsNullish contractsV (.vArr [])) with
    | none => defaultSession
    | some items =>
      { rpcUrl := match jsOptProp parsed "rpcUrl" with
          | .vStr s => s
          | _ => DEFAULT_RPC
        darkMode := jsTruthy (jsOptProp parsed "darkMode")
        collapsed := match jsOptProp parsed "collapsed" with
          | .vObj fs => .vObj fs
          | .vArr xs => .vArr xs
          | _ => .vObj []
        contracts := items.filterMap parseContractItem }

/-- loadSession from App.tsx.  The raw argument models the value of
localStorage.getItem(STORAGE_KEY) ?? localStorage.getItem(LEGACY_KEY)
(browser storage is external); any parse failure yields the default
state via the outer catch. -/
def loadSession (raw : Option String) : SessionState :=
  match raw with
  | none => defaultSession
  | some s =>
    match jsonParse s with
    | none => defaultSession
    | some parsed => loadSessionParsed parsed

/-! ### Per-contract UI state and updateTupleDraftInput
(App.tsx lines 538-559) -/

/-- The slice of ContractUI that updateTupleDraftInput reads and writes.
fnInputs and tupleDrafts are records, modelled as total functions with the
defaults the code applies on read (?? [] and ?? {} / ?? ""); the remaining
ContractUI fields (payable values, results, raw decode inputs) are carried
through {...prev} unchanged and are not modelled.  The contract-id level
(setContractState) is the same keyed-record update one level up. -/
structure ContractUI where
  fnInputs : String → List String
  tupleDrafts : String → String → String

/-- arr[index] = value on a copy of the array: JS extends a short array,
and the holes created read back as the empty string through the ?? ""
applied at every use site. -/
def jsArraySet (l : List String) (i : Nat) (v : String) : List String :=
  l.take i ++ List.replicate (i - l.length) "" ++ [v] ++ l.drop (i + 1)

/-- updateTupleDraftInput from App.tsx: write the leaf draft under
argIndex:pathText in the signature's draft record, then resync the
signature's serialized argument from the rebuilt tuple value. -/
def updateTupleDraftInput (prev : ContractUI) (signature : String)
    (argIndex : Nat) (param : AbiParam) (pathText : String) (value : String) :
    ContractUI :=
  let key := draftKey argIndex pathText
  let draft : String → String :=
    fun k => if k = key then value else prev.tupleDrafts signature k
  let tupleDrafts : String → String → String :=
    fun sig k => if sig = signature then draft k else prev.tupleDrafts sig k
  let arr := jsArraySet (prev.fnInputs signature) argIndex
    (jsonStringify (buildTupleValueFromDraft param argIndex draft []))
  let fnInputs : String → List String :=
    fun sig => if sig = signature then arr else prev.fnInputs sig
  { fnInputs := fnInputs, tupleDrafts := tupleDrafts }

/-- componentwise coercion of reconstructed children: the shape that the
round-trip law decomposes into (component at index i is coerced against
the child value F i c). -/
def coerceChildren (g : AbiParam → Value → Except String Value)
    (F : Nat → AbiParam → Value) : Nat → List AbiParam → Except String (List Value)
  | _, [] => .ok []
  | i, c :: cs => do
    let a ← g c (F i c)
    let r ← coerceChildren g F (i+1) cs
    .ok (a :: r)

/-! ### Fuel soundness: the psize bound is sufficient -/

theorem psize_eq (t n : String) (comps : List AbiParam) :
    psize (.mk t n comps) = t.length + 1 + psizeList comps := by
  simp [psize]

theorem psize_pos (p : AbiParam) : 1 ≤ psize p := by
  cases p with
  | mk t n comps => rw [psize_eq]; omega

theorem psizeList_mem_le {c : AbiParam} {cs : List AbiParam} (h : c ∈ cs) :
    psize c ≤ psizeList cs := by
  induction cs with
  | nil => cases h
  | cons d ds ih =>
    rcases List.mem_cons.mp h with h1 | h2
    · subst h1; simp only [psizeList]; omega
    · have := ih h2; simp only [psizeList]; omega

theorem psize_comp_lt {c : AbiParam} {p : AbiParam} (h : c ∈ p.components) :
    psize c < psize p := by
  cases p with
  | mk t n comps =>
    have h1 : psize c ≤ psizeList comps := psizeList_mem_le h
    simp [psize]; simp [AbiParam.components] at h1; omega

theorem length_ge_two_of_endsWith (t : String)
    (h : jsEndsWith t "[]" = true) : 2 ≤ t.data.length := by
  have h2 : "[]".data <:+ t.data := List.isSuffixOf_iff_suffix.mp h
  have := List.IsSuffix.length_le h2
  simpa using this

theorem psize_childParam_lt (p : AbiParam)
    (h : jsEndsWith p.type "[]" = true) : psize (childParam p) < psize p := by
  cases p with
  | mk t n comps =>
    have hlen : 2 ≤ t.data.length := length_ge_two_of_endsWith t h
    show psize (.mk (jsSliceMinusTwo t) n comps) < psize (.mk t n comps)
    rw [psize_eq, psize_eq]
    have h1 : (jsSliceMinusTwo t).length = t.data.length - 2 := by
      show (t.data.dropLast.dropLast).length = t.data.length - 2
      rw [List.length_dropLast, List.length_dropLast]
      omega
    have h2 : t.length = t.data.length := rfl
    omega

theorem exceptMapList_congr {g g2 : Value → Except String Value}
    (xs : List Value) (h : ∀ x, g x = g2 x) :
    exceptMapList g xs = exceptMapList g2 xs := by
  induction xs with
  | nil => rfl
  | cons x r ih => simp [exceptMapList, h x, ih]

theorem coerceTuplePositional_congr {g g2 : AbiParam → Value → Except String Value}
    (xs : List Value) (cs : List AbiParam) (i : Nat)
    (h : ∀ c ∈ cs, ∀ v, g c v = g2 c v) :
    coerceTuplePositional g xs i cs = coerceTuplePositional g2 xs i cs := by
  induction cs generalizing i with
  | nil => rfl
  | cons c r ih =>
    simp only [coerceTuplePositional]
    rw [h c (List.mem_cons_self c r), ih (i+1) (fun d hd v => h d (List.mem_cons_of_mem c hd) v)]

theorem coerceTupleNamed_congr {g g2 : AbiParam → Value → Except String Value}
    (fields : List (String × Value)) (cs : List AbiParam)
    (h : ∀ c ∈ cs, ∀ v, g c v = g2 c v) :
    coerceTupleNamed g fields cs = coerceTupleNamed g2 fields cs := by
  induction cs with
  | nil => rfl
  | cons c r ih =>
    simp only [coerceTupleNamed]
    rw [h c (List.mem_cons_self c r), ih (fun d hd v => h d (List.mem_cons_of_mem c hd) v)]

theorem coerceStep_congr {g g2 : AbiParam → Value → Except String Value}
    (p : AbiParam) (v : Value)
    (h : ∀ c w, psize c < psize p → g c w = g2 c w) :
    coerceStep g p v = coerceStep g2 p v := by
  unfold coerceStep
  by_cases har : jsEndsWith p.type "[]" = true
  · simp only [har, if_true]
    cases v with
    | vArr xs =>
      have := psize_childParam_lt p har
      exact congrArg (Except.map Value.vArr)
        (exceptMapList_congr xs (fun x => h (childParam p) x this))
    | vUndefined => rfl
    | vNull => rfl
    | vBool b => rfl
    | vNum n => rfl
    | vStr s => rfl
    | vBigInt n => rfl
    | vObj fs => rfl
  · simp only [Bool.not_eq_true] at har
    simp only [har, Bool.false_eq_true, if_false]
    by_cases htu : jsStartsWith p.type "tuple" = true
    · simp only [htu, if_true]
      cases v with
      | vArr xs =>
        exact congrArg (Except.map Value.vArr)
          (coerceTuplePositional_congr xs p.components 0
            (fun c hc w => h c w (psize_comp_lt hc)))
      | vObj fs =>
        exact congrArg (Except.map Value.vArr)
          (coerceTupleNamed_congr fs p.components
            (fun c hc w => h c w (psize_comp_lt hc)))
      | vUndefined => rfl
      | vNull => rfl
      | vBool b => rfl
      | vNum n => rfl
      | vStr s => rfl
      | vBigInt n => rfl
    · simp only [Bool.not_eq_true] at htu
      simp only [htu, Bool.false_eq_true, if_false]

theorem coerceFuel_fuel_irrel :
    ∀ f1 f2 (p : AbiParam) (v : Value), psize p ≤ f1 → psize p ≤ f2 →
      coerceFuel f1 p v = coerceFuel f2 p v := by
  intro f1
  induction f1 with
  | zero => intro f2 p v h1 _; have := psize_pos p; omega
  | succ f ih =>
    intro f2 p v h1 h2
    cases f2 with
    | zero => have := psize_pos p; omega
    | succ f2 =>
      show coerceStep (coerceFuel f) p v = coerceStep (coerceFuel f2) p v
      exact coerceStep_congr p v (fun c w hc => ih f2 c w (by omega) (by omega))

theorem coerceFuel_eq (f : Nat) (p : AbiParam) (v : Value) (h : psize p ≤ f) :
    coerceFuel f p v = coerceAbiValue p v :=
  coerceFuel_fuel_irrel f (psize p) p v h (le_refl _)

/-- The recursion equation of coerceAbiValue: one step of coerceStep with
the function itself standing for the recursive call. -/
theorem coerceAbiValue_fix (p : AbiParam) (v : Value) :
    coerceAbiValue p v = coerceStep coerceAbiValue p v := by
  have hpos := psize_pos p
  obtain ⟨q, hq⟩ : ∃ q, psize p = q + 1 := ⟨psize p - 1, by omega⟩
  show coerceFuel (psize p) p v = _
  rw [hq]
  show coerceStep (coerceFuel q) p v = coerceStep coerceAbiValue p v
  exact coerceStep_congr p v (fun c w hc => coerceFuel_eq q c w (by omega))

theorem mapWithIdx_congr {α : Type} {F F2 : Nat → AbiParam → α}
    (cs : List AbiParam) (i : Nat)
    (h : ∀ j c, c ∈ cs → F j c = F2 j c) :
    mapWithIdx F i cs = mapWithIdx F2 i cs := by
  induction cs generalizing i with
  | nil => rfl
  | cons c r ih =>
    simp only [mapWithIdx]
    rw [h i c (List.mem_cons_self c r), ih (i+1) (fun j d hd => h j d (List.mem_cons_of_mem c hd))]

theorem buildStep_congr {g g2 : AbiParam → List Nat → Value}
    (d : String → String) (i : Nat) (p : AbiParam) (path : List Nat)
    (h : ∀ c pth, psize c < psize p → g c pth = g2 c pth) :
    buildStep g d i p path = buildStep g2 d i p path := by
  unfold buildStep
  by_cases he : isExpandableTuple p = true
  · simp only [he, if_true]
    exact congrArg Value.vArr
      (mapWithIdx_congr p.components 0 (fun j c hc => h c _ (psize_comp_lt hc)))
  · simp only [Bool.not_eq_true] at he
    simp only [he, Bool.false_eq_true, if_false]

theorem buildFuel_fuel_irrel :
    ∀ f1 f2 (d : String → String) (i : Nat) (p : AbiParam) (path : List Nat),
      psize p ≤ f1 → psize p ≤ f2 →
      buildFuel f1 d i p path = buildFuel f2 d i p path := by
  intro f1
  induction f1 with
  | zero => intro f2 d i p path h1 _; have := psize_pos p; omega
  | succ f ih =>
    intro f2 d i p path h1 h2
    cases f2 with
    | zero => have := psize_pos p; omega
    | succ f2 =>
      show buildStep (fun c pth => buildFuel f d i c pth) d i p path
        = buildStep (fun c pth => buildFuel f2 d i c pth) d i p path
      exact buildStep_congr d i p path (fun c pth hc => ih f2 d i c pth (by omega) (by omega))

theorem buildFuel_eq (f : Nat) (d : String → String) (i : Nat) (p : AbiParam)
    (path : List Nat) (h : psize p ≤ f) :
    buildFuel f d i p path = buildTupleValueFromDraft p i d path :=
  buildFuel_fuel_irrel f (psize p) d i p path h (le_refl _)

/-- The recursion equation of buildTupleValueFromDraft. -/
theorem buildTupleValueFromDraft_fix (p : AbiParam) (i : Nat)
    (d : String → String) (path : List Nat) :
    buildTupleValueFromDraft p i d path
      = buildStep (fun c pth => buildTupleValueFromDraft c i d pth) d i p path := by
  have hpos := psize_pos p
  obtain ⟨q, hq⟩ : ∃ q, psize p = q + 1 := ⟨psize p - 1, by omega⟩
  show buildFuel (psize p) d i p path = _
  rw [hq]
  show buildStep (fun c pth => buildFuel q d i c pth) d i p path = _
  exact buildStep_congr d i p path (fun c pth hc => buildFuel_eq q d i c pth (by omega))

theorem collectChildren_congr {g g2 : AbiParam → String → List Nat → List TupleField}
    (cs : List AbiParam) (label : String) (path : List Nat) (i : Nat)
    (h : ∀ c lb pth, c ∈ cs → g c lb pth = g2 c lb pth) :
    collectChildren g cs label path i = collectChildren g2 cs label path i := by
  induction cs generalizing i with
  | nil => rfl
  | cons c r ih =>
    simp only [collectChildren]
    rw [h c _ _ (List.mem_cons_self c r), ih (i+1) (fun d lb pth hd => h d lb pth (List.mem_cons_of_mem c hd))]

theorem collectStep_congr {g g2 : AbiParam → String → List Nat → List TupleField}
    (p : AbiParam) (label : String) (path : List Nat)
    (h : ∀ c lb pth, psize c < psize p → g c lb pth = g2 c lb pth) :
    collectStep g p label path = collectStep g2 p label path := by
  unfold collectStep
  by_cases he : isExpandableTuple p = true
  · simp only [he, if_true]
    exact collectChildren_congr p.components label path 0
      (fun c lb pth hc => h c lb pth (psize_comp_lt hc))
  · simp only [Bool.not_eq_true] at he
    simp only [he, Bool.false_eq_true, if_false]

theorem collectFuel_fuel_irrel :
    ∀ f1 f2 (p : AbiParam) (label : String) (path : List Nat),
      psize p ≤ f1 → psize p ≤ f2 →
      collectFuel f1 p label path = collectFuel f2 p label path := by
  intro f1
  induction f1 with
  | zero => intro f2 p label path h1 _; have := psize_pos p; omega
  | succ f ih =>
    intro f2 p label path h1 h2
    cases f2 with
    | zero => have := psize_pos p; omega
    | succ f2 =>
      show collectStep (collectFuel f) p label path = collectStep (collectFuel f2) p label path
      exact collectStep_congr p label path (fun c lb pth hc => ih f2 c lb pth (by omega) (by omega))

theorem collectFuel_eq (f : Nat) (p : AbiParam) (label : String)
    (path : List Nat) (h : psize p ≤ f) :
    collectFuel f p label path = collectTupleFields p label path :=
  collectFuel_fuel_irrel f (psize p) p label path h (le_refl _)

/-- The recursion equation of collectTupleFields. -/
theorem collectTupleFields_fix (p : AbiParam) (label : String) (path : List Nat) :
    collectTupleFields p label path
      = collectStep (fun c lb pth => collectTupleFields c lb pth) p label path := by
  have hpos := psize_pos p
  obtain ⟨q, hq⟩ : ∃ q, psize p = q + 1 := ⟨psize p - 1, by omega⟩
  show collectFuel (psize p) p label path = _
  rw [hq]
  show collectStep (collectFuel q) p label path = _
  exact collectStep_congr p label path (fun c lb pth hc => collectFuel_eq q c lb pth (by omega))

/-! ### Scalar branch equations of coerceAbiValue -/

theorem uint_head {t : String} (h : jsStartsWith t "uint" = true) :
    ∃ rest, t.data = 'u' :: rest := by
  unfold jsStartsWith at h
  match hd : t.data with
  | [] =>
    rw [hd] at h
    exact absurd h (by decide)
  | a :: as =>
    rw [hd] at h
    have he : "uint".data = ['u', 'i', 'n', 't'] := rfl
    rw [he] at h
    simp only [List.isPrefixOf, Bool.and_eq_true, beq_iff_eq] at h
    exact ⟨as, by rw [h.1]⟩

theorem int_head {t : String} (h : jsStartsWith t "int" = true) :
    ∃ rest, t.data = 'i' :: rest := by
  unfold jsStartsWith at h
  match hd : t.data with
  | [] =>
    rw [hd] at h
    exact absurd h (by decide)
  | a :: as =>
    rw [hd] at h
    have he : "int".data = ['i', 'n', 't'] := rfl
    rw [he] at h
    simp only [List.isPrefixOf, Bool.and_eq_true, beq_iff_eq] at h
    exact ⟨as, by rw [h.1]⟩

theorem not_tuple_of_intLike {t : String}
    (h : jsStartsWith t "uint" = true ∨ jsStartsWith t "int" = true) :
    jsStartsWith t "tuple" = false := by
  have he : "tuple".data = ['t', 'u', 'p', 'l', 'e'] := rfl
  unfold jsStartsWith
  rw [he]
  rcases h with h | h
  · obtain ⟨rest, hr⟩ := uint_head h
    rw [hr]
    simp [List.isPrefixOf]
  · obtain ⟨rest, hr⟩ := int_head h
    rw [hr]
    simp [List.isPrefixOf]

/-- On integer types (uint*/int* not ending in the array suffix), coercion
is exactly the BigInt conversion of the whole value. -/
theorem coerceAbiValue_intType (p : AbiParam) (v : Value)
    (har : jsEndsWith p.type "[]" = false)
    (hint : jsStartsWith p.type "uint" = true ∨ jsStartsWith p.type "int" = true) :
    coerceAbiValue p v = (jsBigInt v).map .vBigInt := by
  rw [coerceAbiValue_fix]
  have htu := not_tuple_of_intLike hint
  simp only [coerceStep, har, htu, Bool.false_eq_true, if_false]
  rcases hint with h | h <;> simp [h]

/-- On type bool, coercion accepts native booleans and the strings whose
lowercasing is exactly true or false. -/
theorem coerceAbiValue_boolType (p : AbiParam) (hp : p.type = "bool") (v : Value) :
    coerceAbiValue p v = (match v with
      | .vBool b => .ok (.vBool b)
      | .vStr s =>
        if jsToLower s = "true" then .ok (.vBool true)
        else if jsToLower s = "false" then .ok (.vBool false)
        else .error "Expected true/false."
      | _ => .error "Expected true/false.") := by
  rw [coerceAbiValue_fix]
  simp only [coerceStep, hp]
  norm_num [show jsEndsWith "bool" "[]" = false from rfl,
    show jsStartsWith "bool" "tuple" = false from rfl,
    show jsStartsWith "bool" "uint" = false from rfl,
    show jsStartsWith "bool" "int" = false from rfl]

/-- On type address, coercion validates the shape and lowercases. -/
theorem coerceAbiValue_addressType (p : AbiParam) (hp : p.type = "address") (v : Value) :
    coerceAbiValue p v = (match v with
      | .vStr s =>
        if isAddressLike s then .ok (.vStr (normalizeAddress s))
        else .error "Invalid address input."
      | _ => .error "Invalid address input.") := by
  rw [coerceAbiValue_fix]
  simp only [coerceStep, hp]
  norm_num [show jsEndsWith "address" "[]" = false from rfl,
    show jsStartsWith "address" "tuple" = false from rfl,
    show jsStartsWith "address" "uint" = false from rfl,
    show jsStartsWith "address" "int" = false from rfl,
    show ("address" : String) ≠ "bool" from by decide]

/-! ### StringToBigInt facts -/

theorem strToBigInt_of_trim_empty {s : String} (h : jsTrim s = "") :
    strToBigInt s = .ok 0 := by
  unfold strToBigInt
  rw [h]

/-- Characters that can appear in a successfully converted BigInt string:
hex digits (which include all radix digit classes) plus radix markers and
signs. -/
def allowedIntChar (c : Char) : Bool :=
  isHexDigitChar c || c == 'x' || c == 'X' || c == 'o' || c == 'O' || c == '+' || c == '-'

theorem parseDigitsRadix_err {radix : Nat} {isD : Char → Bool} {l : List Char}
    {c : Char} (hc : c ∈ l) (hb : isD c = false) :
    parseDigitsRadix radix isD l = .error bigIntErrMsg := by
  unfold parseDigitsRadix
  have hne : l ≠ [] := by rintro rfl; cases hc
  rw [if_neg hne]
  have hall : l.all isD = false := by
    by_contra hx
    simp only [Bool.not_eq_false] at hx
    have := List.all_eq_true.mp hx c hc
    rw [hb] at this
    cases this
  rw [hall]
  rfl

theorem not_dec_of_not_allowed {c : Char} (h : allowedIntChar c = false) :
    isDecDigitChar c = false := by
  simp only [allowedIntChar, Bool.or_eq_false_iff] at h
  have hx := h.1.1.1.1.1.1
  simp only [isHexDigitChar, isDecDigitChar, decide_eq_false_iff_not] at hx ⊢
  omega

theorem not_hex_of_not_allowed {c : Char} (h : allowedIntChar c = false) :
    isHexDigitChar c = false := by
  simp only [allowedIntChar, Bool.or_eq_false_iff] at h
  exact h.1.1.1.1.1.1

theorem not_oct_of_not_allowed {c : Char} (h : allowedIntChar c = false) :
    isOctDigitChar c = false := by
  simp only [allowedIntChar, Bool.or_eq_false_iff] at h
  have hx := h.1.1.1.1.1.1
  simp only [isHexDigitChar, isOctDigitChar, decide_eq_false_iff_not] at hx ⊢
  omega

theorem not_bin_of_not_allowed {c : Char} (h : allowedIntChar c = false) :
    isBinDigitChar c = false := by
  simp only [allowedIntChar, Bool.or_eq_false_iff] at h
  have hx := h.1.1.1.1.1.1
  simp only [isHexDigitChar, isBinDigitChar, decide_eq_false_iff_not] at hx ⊢
  omega

/-- A string whose trimmed text contains any character outside the integer
literal alphabet is a BigInt conversion failure. -/
theorem strToBigInt_badChar {s : String} {c : Char}
    (hc : c ∈ (jsTrim s).data) (hb : allowedIntChar c = false) :
    strToBigInt s = .error bigIntErrMsg := by
  unfold strToBigInt
  split
  · next heq =>
      rw [heq] at hc
      cases hc
  · next rest heq =>
      rw [heq, List.mem_cons, List.mem_cons] at hc
      rcases hc with rfl | rfl | hc
      · exact absurd hb (by decide)
      · exact absurd hb (by decide)
      · exact parseDigitsRadix_err hc (not_hex_of_not_allowed hb)
  · next rest heq =>
      rw [heq, List.mem_cons, List.mem_cons] at hc
      rcases hc with rfl | rfl | hc
      · exact absurd hb (by decide)
      · exact absurd hb (by decide)
      · exact parseDigitsRadix_err hc (not_hex_of_not_allowed hb)
  · next rest heq =>
      rw [heq, List.mem_cons, List.mem_cons] at hc
      rcases hc with rfl | rfl | hc
      · exact absurd hb (by decide)
      · exact absurd hb (by decide)
      · exact parseDigitsRadix_err hc (not_oct_of_not_allowed hb)
  · next rest heq =>
      rw [heq, List.mem_cons, List.mem_cons] at hc
      rcases hc with rfl | rfl | hc
      · exact absurd hb (by decide)
      · exact absurd hb (by decide)
      · exact parseDigitsRadix_err hc (not_oct_of_not_allowed hb)
  · next rest heq =>
      rw [heq, List.mem_cons, List.mem_cons] at hc
      rcases hc with rfl | rfl | hc
      · exact absurd hb (by decide)
      · exact absurd hb (by decide)
      · exact parseDigitsRadix_err hc (not_bin_of_not_allowed hb)
  · next rest heq =>
      rw [heq, List.mem_cons, List.mem_cons] at hc
      rcases hc with rfl | rfl | hc
      · exact absurd hb (by decide)
      · exact absurd hb (by decide)
      · exact parseDigitsRadix_err hc (not_bin_of_not_allowed hb)
  · next rest heq =>
      rw [heq, List.mem_cons] at hc
      rcases hc with rfl | hc
      · exact absurd hb (by decide)
      · exact parseDigitsRadix_err hc (not_dec_of_not_allowed hb)
  · next rest heq =>
      rw [heq, List.mem_cons] at hc
      rcases hc with rfl | hc
      · exact absurd hb (by decide)
      · rw [parseDigitsRadix_err hc (not_dec_of_not_allowed hb)]
        rfl
  · exact parseDigitsRadix_err hc (not_dec_of_not_allowed hb)

/-! ### Character and trim lemmas -/

theorem stringDataExt {s t : String} (h : s.data = t.data) : s = t := by
  cases s
  cases t
  simp only at h
  rw [h]

theorem toLower_toNat_of_upper {c : Char} (h1 : 65 ≤ c.toNat) (h2 : c.toNat ≤ 90) :
    (Char.toLower c).toNat = c.toNat + 32 := by
  rw [Char.toLower]
  rw [if_pos ⟨h1, h2⟩]
  have hv : Nat.isValidChar (c.toNat + 32) := Or.inl (by omega)
  rw [Char.ofNat, dif_pos hv]
  rfl

theorem toLower_eq_self {c : Char} (h : ¬(65 ≤ c.toNat ∧ c.toNat ≤ 90)) :
    Char.toLower c = c := by
  rw [Char.toLower]
  rw [if_neg]
  omega

theorem toLower_hex {c : Char} (h : isHexDigitChar c = true) :
    isHexDigitChar (Char.toLower c) = true ∧
      ¬(65 ≤ (Char.toLower c).toNat ∧ (Char.toLower c).toNat ≤ 90) := by
  simp only [isHexDigitChar, decide_eq_true_eq] at h
  by_cases hu : 65 ≤ c.toNat ∧ c.toNat ≤ 90
  · have ht := toLower_toNat_of_upper hu.1 hu.2
    constructor
    · simp only [isHexDigitChar, decide_eq_true_eq, ht]
      omega
    · omega
  · rw [toLower_eq_self hu]
    constructor
    · simp only [isHexDigitChar, decide_eq_true_eq]
      omega
    · omega

theorem toLower_idem (c : Char) :
    Char.toLower (Char.toLower c) = Char.toLower c := by
  by_cases hu : 65 ≤ c.toNat ∧ c.toNat ≤ 90
  · have ht := toLower_toNat_of_upper hu.1 hu.2
    apply toLower_eq_self
    omega
  · rw [toLower_eq_self hu, toLower_eq_self hu]

theorem dropWhile_all_false {p : Char → Bool} {l : List Char}
    (h : ∀ c ∈ l, p c = false) : l.dropWhile p = l := by
  cases l with
  | nil => rfl
  | cons a as =>
    rw [List.dropWhile_cons]
    rw [h a (List.mem_cons_self a as)]
    simp

theorem jsTrim_eq_self {s : String}
    (h : ∀ c ∈ s.data, jsWhitespaceChar c = false) : jsTrim s = s := by
  apply stringDataExt
  show ((s.data.dropWhile jsWhitespaceChar).reverse.dropWhile jsWhitespaceChar).reverse = s.data
  rw [dropWhile_all_false h]
  rw [dropWhile_all_false (fun c hc => h c (List.mem_reverse.mp hc))]
  exact List.reverse_reverse _

theorem hexChar_not_ws {c : Char} (h : isHexDigitChar c = true) :
    jsWhitespaceChar c = false := by
  simp only [isHexDigitChar, decide_eq_true_eq] at h
  simp only [jsWhitespaceChar, decide_eq_false_iff_not]
  omega

/-! ### Address shape lemmas -/

theorem isAddressLike_elim {s : String} (h : isAddressLike s = true) :
    ∃ rest, s.data = '0' :: 'x' :: rest ∧ rest.length = 40 ∧
      rest.all isHexDigitChar = true := by
  unfold isAddressLike at h
  split at h
  · next rest heq =>
      simp only [Bool.and_eq_true, beq_iff_eq] at h
      exact ⟨rest, heq, h.1, h.2⟩
  · cases h

theorem addr_chars_not_ws {s : String} (h : isAddressLike s = true) :
    ∀ c ∈ s.data, jsWhitespaceChar c = false := by
  obtain ⟨rest, heq, _, hall⟩ := isAddressLike_elim h
  intro c hc
  rw [heq, List.mem_cons, List.mem_cons] at hc
  rcases hc with rfl | rfl | hc
  · decide
  · decide
  · exact hexChar_not_ws (List.all_eq_true.mp hall c hc)

theorem normalizeAddress_of_addressLike {s : String} (h : isAddressLike s = true) :
    normalizeAddress s = jsToLower s := by
  unfold normalizeAddress
  rw [jsTrim_eq_self (addr_chars_not_ws h)]

theorem isAddressLike_toLower {s : String} (h : isAddressLike s = true) :
    isAddressLike (jsToLower s) = true := by
  obtain ⟨rest, heq, hlen, hall⟩ := isAddressLike_elim h
  have hd : (jsToLower s).data = '0' :: 'x' :: rest.map Char.toLower := by
    show (s.data.map Char.toLower) = _
    rw [heq]
    rfl
  unfold isAddressLike
  rw [hd]
  simp only [Bool.and_eq_true, beq_iff_eq, List.length_map, List.all_eq_true]
  refine ⟨hlen, ?_⟩
  intro c hc
  obtain ⟨d, hd2, rfl⟩ := List.mem_map.mp hc
  exact (toLower_hex (List.all_eq_true.mp hall d hd2)).1

theorem isAddressLike_lowercase {s : String} (h : isAddressLike s = true) :
    ∀ c ∈ (jsToLower s).data, ¬(65 ≤ c.toNat ∧ c.toNat ≤ 90) := by
  obtain ⟨rest, heq, hlen, hall⟩ := isAddressLike_elim h
  intro c hc
  have hd : (jsToLower s).data = '0' :: 'x' :: rest.map Char.toLower := by
    show (s.data.map Char.toLower) = _
    rw [heq]
    rfl
  rw [hd, List.mem_cons, List.mem_cons] at hc
  rcases hc with rfl | rfl | hc
  · decide
  · decide
  · obtain ⟨d, hd2, rfl⟩ := List.mem_map.mp hc
    exact (toLower_hex (List.all_eq_true.mp hall d hd2)).2

theorem jsToLower_idem (s : String) : jsToLower (jsToLower s) = jsToLower s := by
  apply stringDataExt
  show (s.data.map Char.toLower).map Char.toLower = s.data.map Char.toLower
  rw [List.map_map]
  exact List.map_congr_left (fun c _ => toLower_idem c)

theorem normalizeAddress_idem {s : String} (h : isAddressLike s = true) :
    normalizeAddress (normalizeAddress s) = normalizeAddress s := by
  rw [normalizeAddress_of_addressLike h]
  have h2 : isAddressLike (jsToLower s) = true := isAddressLike_toLower h
  rw [normalizeAddress_of_addressLike h2]
  exact jsToLower_idem s

/-! ### Decimal rendering lemmas: the characters of Nat.repr are digits,
the rendering is non-empty, and it is injective.  These underpin the
draft-key collision-freedom property. -/

theorem toDigitsCore_acc :
    ∀ (fuel n : Nat) (ds : List Char),
      Nat.toDigitsCore 10 fuel n ds = Nat.toDigitsCore 10 fuel n [] ++ ds := by
  intro fuel
  induction fuel with
  | zero => intro n ds; rfl
  | succ f ih =>
    intro n ds
    simp only [Nat.toDigitsCore]
    by_cases h : n / 10 = 0
    · simp only [h, if_true]
      rfl
    · simp only [h, if_false]
      rw [ih (n / 10) [Nat.digitChar (n % 10)]]
      rw [ih (n / 10) (Nat.digitChar (n % 10) :: ds)]
      rw [List.append_assoc]
      rfl

theorem digitChar_isDec {k : Nat} (h : k < 10) :
    isDecDigitChar (Nat.digitChar k) = true := by
  interval_cases k <;> decide

theorem digitChar_val {k : Nat} (h : k < 10) :
    digitValNat (Nat.digitChar k) = k := by
  interval_cases k <;> decide

theorem toDigitsCore_digits :
    ∀ (fuel n : Nat) (ds : List Char),
      (∀ c ∈ ds, isDecDigitChar c = true) →
      ∀ c ∈ Nat.toDigitsCore 10 fuel n ds, isDecDigitChar c = true := by
  intro fuel
  induction fuel with
  | zero => intro n ds h; exact h
  | succ f ih =>
    intro n ds h c hc
    simp only [Nat.toDigitsCore] at hc
    by_cases h10 : n / 10 = 0
    · simp only [h10, if_true] at hc
      rw [List.mem_cons] at hc
      rcases hc with rfl | hc
      · exact digitChar_isDec (Nat.mod_lt n (by omega))
      · exact h c hc
    · simp only [h10, if_false] at hc
      refine ih (n / 10) _ ?_ c hc
      intro d hd
      rw [List.mem_cons] at hd
      rcases hd with rfl | hd
      · exact digitChar_isDec (Nat.mod_lt n (by omega))
      · exact h d hd

theorem repr_data_digits (n : Nat) :
    ∀ c ∈ (Nat.repr n).data, isDecDigitChar c = true := by
  intro c hc
  exact toDigitsCore_digits (n+1) n [] (by intro d hd; cases hd) c hc

theorem repr_data_ne_nil (n : Nat) : (Nat.repr n).data ≠ [] := by
  show Nat.toDigitsCore 10 (n+1) n [] ≠ []
  simp only [Nat.toDigitsCore]
  by_cases h : n / 10 = 0
  · simp only [h, if_true]
    exact List.cons_ne_nil _ _
  · simp only [h, if_false]
    rw [toDigitsCore_acc]
    intro hx
    exact List.cons_ne_nil _ _ (List.append_eq_nil.mp hx).2

theorem toDigitsCore_val :
    ∀ (fuel n : Nat), n < fuel →
      digitsFold 10 (Nat.toDigitsCore 10 fuel n []) = n := by
  intro fuel
  induction fuel with
  | zero => intro n h; omega
  | succ f ih =>
    intro n h
    simp only [Nat.toDigitsCore]
    by_cases h10 : n / 10 = 0
    · simp only [h10, if_true]
      show digitsFold 10 [Nat.digitChar (n % 10)] = n
      have hn : n < 10 := by omega
      have : n % 10 = n := Nat.mod_eq_of_lt hn
      rw [this]
      show 0 * 10 + digitValNat (Nat.digitChar n) = n
      rw [digitChar_val hn]
      omega
    · simp only [h10, if_false]
      rw [toDigitsCore_acc]
      unfold digitsFold
      rw [List.foldl_append]
      have hdivlt : n / 10 < f := by
        have h1 : 0 < n := by
          by_contra hx
          have : n = 0 := by omega
          rw [this] at h10
          exact h10 rfl
        have hlt : n / 10 < n := Nat.div_lt_self h1 (by omega)
        omega
      have hval := ih (n / 10) hdivlt
      unfold digitsFold at hval
      rw [hval]
      show n / 10 * 10 + digitValNat (Nat.digitChar (n % 10)) = n
      rw [digitChar_val (Nat.mod_lt n (by omega))]
      omega

theorem repr_data_inj {m n : Nat}
    (h : (Nat.repr m).data = (Nat.repr n).data) : m = n := by
  have hm : digitsFold 10 (Nat.toDigitsCore 10 (m+1) m []) = m :=
    toDigitsCore_val (m+1) m (by omega)
  have hn : digitsFold 10 (Nat.toDigitsCore 10 (n+1) n []) = n :=
    toDigitsCore_val (n+1) n (by omega)
  have h2 : Nat.toDigitsCore 10 (m+1) m [] = Nat.toDigitsCore 10 (n+1) n [] := h
  rw [← hm, ← hn, h2]

theorem repr_no_colon {n : Nat} : ':' ∉ (Nat.repr n).data := by
  intro h
  have := repr_data_digits n ':' h
  cases this

theorem repr_no_dot {n : Nat} : '.' ∉ (Nat.repr n).data := by
  intro h
  have := repr_data_digits n '.' h
  cases this

/-- Splitting at a separator that occurs in neither left part is
unambiguous. -/
theorem sep_split (sep : Char) :
    ∀ (a b c d : List Char), sep ∉ a → sep ∉ b →
      a ++ sep :: c = b ++ sep :: d → a = b ∧ c = d := by
  intro a
  induction a with
  | nil =>
    intro b c d _ hb h
    cases b with
    | nil =>
      simp only [List.nil_append] at h
      exact ⟨rfl, (List.cons.injEq _ _ _ _).mp h |>.2⟩
    | cons y ys =>
      simp only [List.nil_append, List.cons_append] at h
      have hp := (List.cons.injEq _ _ _ _).mp h
      refine absurd ?_ hb
      rw [← hp.1]
      exact List.mem_cons_self _ _
  | cons x xs ih =>
    intro b c d ha hb h
    cases b with
    | nil =>
      simp only [List.cons_append, List.nil_append] at h
      have hp := (List.cons.injEq _ _ _ _).mp h
      refine absurd ?_ ha
      rw [hp.1]
      exact List.mem_cons_self _ _
    | cons y ys =>
      simp only [List.cons_append] at h
      have hp := (List.cons.injEq _ _ _ _).mp h
      have hrec := ih ys c d (fun hx => ha (List.mem_cons_of_mem x hx))
        (fun hx => hb (List.mem_cons_of_mem y hx)) hp.2
      exact ⟨by rw [hp.1, hrec.1], hrec.2⟩

theorem pathTextOf_inj : ∀ p1 p2 : List Nat,
    pathTextOf p1 = pathTextOf p2 → p1 = p2 := by
  intro p1
  induction p1 with
  | nil =>
    intro p2 h
    have hd := congrArg String.data h
    match p2 with
    | [] => rfl
    | [j] =>
      simp only [pathTextOf, show ("" : String).data = ([] : List Char) from rfl] at hd
      exact absurd hd.symm (repr_data_ne_nil j)
    | j :: k :: r =>
      simp only [pathTextOf, String.data_append, List.append_assoc, List.singleton_append,
        show ("." : String).data = ['.'] from rfl,
        show ("" : String).data = ([] : List Char) from rfl] at hd
      have := List.append_eq_nil.mp hd.symm
      cases this.2
  | cons i is ih =>
    intro p2 h
    have hd := congrArg String.data h
    match is, p2 with
    | [], [] =>
      simp only [pathTextOf, show ("" : String).data = ([] : List Char) from rfl] at hd
      exact absurd hd (repr_data_ne_nil i)
    | [], [j] =>
      simp only [pathTextOf] at hd
      rw [repr_data_inj hd]
    | [], j :: k :: r =>
      simp only [pathTextOf, String.data_append, List.append_assoc, List.singleton_append,
        show ("." : String).data = ['.'] from rfl] at hd
      have hdot : '.' ∈ (Nat.repr i).data := by
        rw [hd]
        exact List.mem_append.mpr (Or.inr (List.mem_cons_self _ _))
      exact absurd hdot repr_no_dot
    | k :: r, [] =>
      simp only [pathTextOf, String.data_append, List.append_assoc, List.singleton_append,
        show ("." : String).data = ['.'] from rfl,
        show ("" : String).data = ([] : List Char) from rfl] at hd
      have := List.append_eq_nil.mp hd
      cases this.2
    | k :: r, [j] =>
      simp only [pathTextOf, String.data_append, List.append_assoc, List.singleton_append,
        show ("." : String).data = ['.'] from rfl] at hd
      have hdot : '.' ∈ (Nat.repr j).data := by
        rw [← hd]
        exact List.mem_append.mpr (Or.inr (List.mem_cons_self _ _))
      exact absurd hdot repr_no_dot
    | k :: r, j :: l :: r2 =>
      simp only [pathTextOf, String.data_append, List.append_assoc, List.singleton_append,
        show ("." : String).data = ['.'] from rfl] at hd
      have hsplit := sep_split '.' _ _ _ _ repr_no_dot repr_no_dot hd
      have h1 : i = j := repr_data_inj hsplit.1
      have h2 : pathTextOf (k :: r) = pathTextOf (l :: r2) := stringDataExt hsplit.2
      have := ih (l :: r2) h2
      rw [h1, this]

/-- Draft keys are collision-free: distinct argument index / leaf path
pairs produce distinct argIndex:pathText keys. -/
theorem draftKey_inj {i1 i2 : Nat} {p1 p2 : List Nat}
    (h : draftKey i1 (pathTextOf p1) = draftKey i2 (pathTextOf p2)) :
    i1 = i2 ∧ p1 = p2 := by
  unfold draftKey at h
  have hd := congrArg String.data h
  simp only [String.data_append, List.append_assoc, List.singleton_append,
    show (":" : String).data = [':'] from rfl] at hd
  have hsplit := sep_split ':' _ _ _ _ repr_no_colon repr_no_colon hd
  exact ⟨repr_data_inj hsplit.1, pathTextOf_inj p1 p2 (stringDataExt hsplit.2)⟩

/-! ### Tuple decomposition: the round-trip law's structural content -/

theorem isExpandableTuple_elim {p : AbiParam} (h : isExpandableTuple p = true) :
    jsStartsWith p.type "tuple" = true ∧ jsEndsWith p.type "[]" = false := by
  unfold isExpandableTuple at h
  simp only [Bool.and_eq_true, Bool.not_eq_true'] at h
  exact h

/-- Coercion of a positional array under an expandable tuple walks the
components positionally. -/
theorem coerceAbiValue_expandable (p : AbiParam) (xs : List Value)
    (h : isExpandableTuple p = true) :
    coerceAbiValue p (.vArr xs)
      = (coerceTuplePositional coerceAbiValue xs 0 p.components).map .vArr := by
  obtain ⟨hts, har⟩ := isExpandableTuple_elim h
  rw [coerceAbiValue_fix]
  simp only [coerceStep, har, hts, Bool.false_eq_true, if_false, if_true]

/-- Reconstruction of an expandable tuple produces one entry per
component, in order. -/
theorem buildTupleValueFromDraft_expandable (p : AbiParam) (i : Nat)
    (d : String → String) (path : List Nat) (h : isExpandableTuple p = true) :
    buildTupleValueFromDraft p i d path
      = .vArr (mapWithIdx
          (fun idx c => buildTupleValueFromDraft c i d (path ++ [idx])) 0 p.components) := by
  rw [buildTupleValueFromDraft_fix]
  simp only [buildStep, h, if_true]

/-- Reconstruction at a leaf reads the draft store under the path key. -/
theorem buildTupleValueFromDraft_leaf (p : AbiParam) (i : Nat)
    (d : String → String) (path : List Nat) (h : isExpandableTuple p = false) :
    buildTupleValueFromDraft p i d path
      = parseTupleLeafDraft p (d (draftKey i (pathTextOf path))) := by
  rw [buildTupleValueFromDraft_fix]
  simp only [buildStep, h, Bool.false_eq_true, if_false]

theorem jsIndex_append (ys : List Value) (z : Value) (zs : List Value) :
    jsIndex (ys ++ z :: zs) ys.length = z := by
  induction ys with
  | nil => rfl
  | cons y t ih =>
    show jsIndex (t ++ z :: zs) t.length = z
    exact ih

theorem mapWithIdx_length {α : Type} (f : Nat → AbiParam → α) :
    ∀ (i : Nat) (cs : List AbiParam), (mapWithIdx f i cs).length = cs.length := by
  intro i cs
  induction cs generalizing i with
  | nil => rfl
  | cons c t ih => simp only [mapWithIdx, List.length_cons, ih]

/-- Positional coercion against a list built index-aligned from the same
components is exactly componentwise coercion of the built children. -/
theorem coerceTuplePositional_aligned
    (g : AbiParam → Value → Except String Value) (F : Nat → AbiParam → Value) :
    ∀ (cs : List AbiParam) (ys : List Value) (i : Nat), ys.length = i →
      coerceTuplePositional g (ys ++ mapWithIdx F i cs) i cs
        = coerceChildren g F i cs := by
  intro cs
  induction cs with
  | nil => intro ys i hy; rfl
  | cons c t ih =>
    intro ys i hy
    simp only [coerceTuplePositional, coerceChildren, mapWithIdx]
    rw [← hy, jsIndex_append]
    have hstep : ys ++ F ys.length c :: mapWithIdx F (ys.length + 1) t
        = (ys ++ [F ys.length c]) ++ mapWithIdx F (ys.length + 1) t := by
      rw [List.append_assoc]
      rfl
    rw [hy] at hstep ⊢
    rw [hstep]
    rw [ih (ys ++ [F i c]) (i + 1) (by simp [hy])]

/-- Round-trip decomposition: coercing the reconstruction of an expandable
tuple is the componentwise coercion of each component's reconstruction. -/
theorem coerce_build_decomposition (p : AbiParam) (i : Nat)
    (d : String → String) (path : List Nat) (h : isExpandableTuple p = true) :
    coerceAbiValue p (buildTupleValueFromDraft p i d path)
      = (coerceChildren coerceAbiValue
          (fun idx c => buildTupleValueFromDraft c i d (path ++ [idx]))
          0 p.components).map .vArr := by
  rw [buildTupleValueFromDraft_expandable p i d path h]
  rw [coerceAbiValue_expandable p _ h]
  rw [show (mapWithIdx (fun idx c => buildTupleValueFromDraft c i d (path ++ [idx])) 0 p.components)
      = [] ++ (mapWithIdx (fun idx c => buildTupleValueFromDraft c i d (path ++ [idx])) 0 p.components)
    from rfl]
  rw [coerceTuplePositional_aligned coerceAbiValue _ p.components [] 0 rfl]

/-- Flattening an expandable tuple concatenates the flattenings of its
components, left to right, with the extended labels and paths. -/
theorem collectTupleFields_expandable (p : AbiParam) (label : String)
    (path : List Nat) (h : isExpandableTuple p = true) :
    collectTupleFields p label path
      = collectChildren (fun c lb pth => collectTupleFields c lb pth)
          p.components label path 0 := by
  rw [collectTupleFields_fix]
  simp only [collectStep, h, if_true]

/-- Flattening a non-expandable node gives the single leaf field. -/
theorem collectTupleFields_leaf (p : AbiParam) (label : String)
    (path : List Nat) (h : isExpandableTuple p = false) :
    collectTupleFields p label path
      = [{ path := path, pathText := pathTextOf path, label := label, param := p }] := by
  rw [collectTupleFields_fix]
  simp only [collectStep, h, Bool.false_eq_true, if_false]

theorem collectChildren_length
    (g : AbiParam → String → List Nat → List TupleField) :
    ∀ (cs : List AbiParam) (label : String) (path : List Nat) (i : Nat),
      (collectChildren g cs label path i).length
        = (mapWithIdx (fun idx c =>
            (g c (label ++ "." ++ jsOrName c.name ("item" ++ Nat.repr idx))
              (path ++ [idx])).length) i cs).sum := by
  intro cs
  induction cs with
  | nil => intro label path i; rfl
  | cons c t ih =>
    intro label path i
    simp only [collectChildren, mapWithIdx, List.length_append, List.sum_cons, ih]

theorem coerce_address_vStr (p : AbiParam) (ht : p.type = "address") (s : String) :
    coerceAbiValue p (.vStr s)
      = if isAddressLike s = true then .ok (.vStr (normalizeAddress s))
        else .error "Invalid address input." := by
  rw [coerceAbiValue_addressType p ht]

theorem coerce_bool_vStr (p : AbiParam) (ht : p.type = "bool") (s : String) :
    coerceAbiValue p (.vStr s)
      = if jsToLower s = "true" then .ok (.vBool true)
        else if jsToLower s = "false" then .ok (.vBool false)
        else .error "Expected true/false." := by
  rw [coerceAbiValue_boolType p ht]

theorem coerce_bool_vBool (p : AbiParam) (ht : p.type = "bool") (b : Bool) :
    coerceAbiValue p (.vBool b) = .ok (.vBool b) := by
  rw [coerceAbiValue_boolType p ht]

/-! ### Claim theorems -/

/-- C1 counterexample: the round-trip claim asserts that the empty string
left in an untouched draft field under a uint256 leaf always fails and is
never silently coerced to 0; in fact reconstructing a one-field uint256
tuple from an untouched draft store and coercing succeeds with the value
0 (JS BigInt of the empty string is 0n). -/
theorem c1_counterexample :
    coerceAbiValue (.mk "tuple" "t" [.mk "uint256" "x" []])
      (buildTupleValueFromDraft (.mk "tuple" "t" [.mk "uint256" "x" []]) 0 (fun _ => "") [])
      = .ok (.vArr [.vBigInt 0]) := rfl

/-- C1 (amended): coercing the reconstruction of a tuple parameter node
decomposes into the componentwise coercion of each component's
reconstruction, so success and failure are decided leaf by leaf from the
leaf's declared type; a string under a uint256 leaf containing a
character outside the integer-literal alphabet always fails with the
BigInt conversion error, but the empty string left in an untouched draft
field is silently coerced to 0 rather than failing. -/
theorem c1_roundtrip_amended :
    (∀ (p : AbiParam) (i : Nat) (d : String → String) (path : List Nat),
       isExpandableTuple p = true →
       coerceAbiValue p (buildTupleValueFromDraft p i d path)
         = (coerceChildren coerceAbiValue
             (fun idx c => buildTupleValueFromDraft c i d (path ++ [idx]))
             0 p.components).map .vArr) ∧
    (∀ (s : String) (nm : String), jsTrim s = "" →
       coerceAbiValue (.mk "uint256" nm []) (parseTupleLeafDraft (.mk "uint256" nm []) s)
         = .ok (.vBigInt 0)) ∧
    (∀ (s : String) (nm : String) (c : Char),
       c ∈ (jsTrim s).data → allowedIntChar c = false →
       coerceAbiValue (.mk "uint256" nm []) (.vStr s) = .error bigIntErrMsg) := by
  refine ⟨fun p i d path h => coerce_build_decomposition p i d path h, ?_, ?_⟩
  · intro s nm h
    have hp : parseTupleLeafDraft (.mk "uint256" nm []) s = .vStr "" := by
      unfold parseTupleLeafDraft
      simp only [h, if_true]
    rw [hp]
    rw [coerceAbiValue_intType (.mk "uint256" nm []) _ rfl (Or.inl rfl)]
    rfl
  · intro s nm c hc hb
    rw [coerceAbiValue_intType (.mk "uint256" nm []) _ rfl (Or.inl rfl)]
    show (strToBigInt s).map Value.vBigInt = .error bigIntErrMsg
    rw [strToBigInt_badChar hc hb]
    rfl

/-- C1 witness: the amended round-trip applied to the two-field
tuple(address,uint256) of the spec's first scenario, to the empty draft
text, and to the non-numeric draft text zz. -/
theorem c1_roundtrip_amended_witness :
    (isExpandableTuple (.mk "tuple" "t" [.mk "address" "to" [], .mk "uint256" "amount" []]) = true ∧
     coerceAbiValue (.mk "tuple" "t" [.mk "address" "to" [], .mk "uint256" "amount" []])
        (buildTupleValueFromDraft
          (.mk "tuple" "t" [.mk "address" "to" [], .mk "uint256" "amount" []]) 0
          (fun k => if k = "0:0" then "0xABCDEF0123456789ABCDEF0123456789ABCDEF01"
                    else if k = "0:1" then "1000" else "") [])
        = (coerceChildren coerceAbiValue
            (fun idx c => buildTupleValueFromDraft c 0
              (fun k => if k = "0:0" then "0xABCDEF0123456789ABCDEF0123456789ABCDEF01"
                        else if k = "0:1" then "1000" else "") ([] ++ [idx]))
            0 [AbiParam.mk "address" "to" [], AbiParam.mk "uint256" "amount" []]).map .vArr) ∧
    (jsTrim "" = "" ∧
     coerceAbiValue (.mk "uint256" "x" []) (parseTupleLeafDraft (.mk "uint256" "x" []) "")
       = .ok (.vBigInt 0)) ∧
    ('z' ∈ (jsTrim "zz").data ∧ allowedIntChar 'z' = false ∧
     coerceAbiValue (.mk "uint256" "x" []) (.vStr "zz") = .error bigIntErrMsg) :=
  ⟨⟨rfl, c1_roundtrip_amended.1 _ 0 _ [] rfl⟩,
   ⟨rfl, c1_roundtrip_amended.2.1 "" "x" rfl⟩,
   ⟨by decide, rfl, c1_roundtrip_amended.2.2 "zz" "x" 'z' (by decide) rfl⟩⟩

/-- C3 counterexample: the claim asserts that coercing the raw text TRUE
under a bool parameter fails with a ValidationError; in fact the code
lowercases the string first and returns true. -/
theorem c3_counterexample :
    coerceAbiValue (.mk "bool" "b" []) (.vStr "TRUE") = .ok (.vBool true) := rfl

/-- C3 (amended): bool coercion is case-insensitive on both literals: the
raw text TRUE succeeds with true (it does not fail), False succeeds with
false, native booleans pass through, and any string whose lowercasing is
neither true nor false fails with the expected-true/false error. -/
theorem c3_bool_amended :
    coerceAbiValue (.mk "bool" "b" []) (.vStr "TRUE") = .ok (.vBool true) ∧
    coerceAbiValue (.mk "bool" "b" []) (.vStr "False") = .ok (.vBool false) ∧
    (∀ (b : Bool) (nm : String),
       coerceAbiValue (.mk "bool" nm []) (.vBool b) = .ok (.vBool b)) ∧
    (∀ (s nm : String), jsToLower s ≠ "true" → jsToLower s ≠ "false" →
       coerceAbiValue (.mk "bool" nm []) (.vStr s) = .error "Expected true/false.") := by
  refine ⟨rfl, rfl, ?_, ?_⟩
  · intro b nm
    rw [coerceAbiValue_boolType (.mk "bool" nm []) rfl]
  · intro s nm h1 h2
    rw [coerceAbiValue_boolType (.mk "bool" nm []) rfl]
    simp only [if_neg h1, if_neg h2]

/-- C3 witness: the failing branch applied to the string yes. -/
theorem c3_bool_amended_witness :
    jsToLower "yes" ≠ "true" ∧ jsToLower "yes" ≠ "false" ∧
    coerceAbiValue (.mk "bool" "b" []) (.vStr "yes") = .error "Expected true/false." :=
  ⟨by decide, by decide, c3_bool_amended.2.2.2 "yes" "b" (by decide) (by decide)⟩

/-- C5 (confirmed): leaf reconstruction is total (parseTupleLeafDraft is a
plain function of the node and the raw text) and case-splits exactly as
specified: empty trimmed text gives the empty string; array or tuple typed
leaves give the JSON parse of the trimmed text, falling back to the raw
string when the parse fails; scalar leaves return the raw string. -/
theorem c5_leafDraft :
    ∀ (p : AbiParam) (raw : String),
      (jsTrim raw = "" → parseTupleLeafDraft p raw = .vStr "") ∧
      (jsTrim raw ≠ "" →
        (jsEndsWith p.type "[]" || jsStartsWith p.type "tuple") = true →
        parseTupleLeafDraft p raw
          = (match jsonParse (jsTrim raw) with
             | some v => v
             | none => .vStr raw)) ∧
      (jsTrim raw ≠ "" →
        (jsEndsWith p.type "[]" || jsStartsWith p.type "tuple") = false →
        parseTupleLeafDraft p raw = .vStr raw) := by
  intro p raw
  refine ⟨?_, ?_, ?_⟩
  · intro h
    unfold parseTupleLeafDraft
    simp only [h, if_true]
  · intro h1 h2
    unfold parseTupleLeafDraft
    simp only [if_neg h1, h2, if_true]
  · intro h1 h2
    unfold parseTupleLeafDraft
    simp only [if_neg h1, h2, Bool.false_eq_true, if_false]

/-- C5 witness: the three cases applied to a uint256[] leaf with draft
text [1] (a successful JSON parse), to the same leaf with the unparsable
draft text [oops (fallback to the raw string), and to a scalar uint256
leaf. -/
theorem c5_leafDraft_witness :
    (jsTrim " " = "" ∧ parseTupleLeafDraft (.mk "uint256" "x" []) " " = .vStr "") ∧
    (jsTrim "[1]" ≠ "" ∧
     (jsEndsWith (AbiParam.mk "uint256[]" "x" []).type "[]" ||
       jsStartsWith (AbiParam.mk "uint256[]" "x" []).type "tuple") = true ∧
     parseTupleLeafDraft (.mk "uint256[]" "x" []) "[1]" = .vArr [.vNum 1]) ∧
    (jsTrim "[oops" ≠ "" ∧
     parseTupleLeafDraft (.mk "uint256[]" "x" []) "[oops" = .vStr "[oops") ∧
    (jsTrim "12" ≠ "" ∧
     (jsEndsWith (AbiParam.mk "uint256" "x" []).type "[]" ||
       jsStartsWith (AbiParam.mk "uint256" "x" []).type "tuple") = false ∧
     parseTupleLeafDraft (.mk "uint256" "x" []) "12" = .vStr "12") :=
  ⟨⟨rfl, (c5_leafDraft (.mk "uint256" "x" []) " ").1 rfl⟩,
   ⟨by decide, rfl, by
      have := (c5_leafDraft (.mk "uint256[]" "x" []) "[1]").2.1 (by decide) rfl
      rw [this]
      rfl⟩,
   ⟨by decide, by
      have := (c5_leafDraft (.mk "uint256[]" "x" []) "[oops").2.1 (by decide) rfl
      rw [this]
      rfl⟩,
   ⟨by decide, rfl, (c5_leafDraft (.mk "uint256" "x" []) "12").2.2 (by decide) rfl⟩⟩

/-- C10 (confirmed): a fixed-size array type such as uint256[3] does not
end with the two-character array suffix, so it skips the array branch and
lands in the startsWith-uint integer branch: the whole value goes through
the single BigInt conversion, and a several-element array input therefore
throws (the array stringifies to 1,2 whose comma is not a digit) instead
of yielding an array of big integers. -/
theorem c10_fixed_array :
    (∀ (v : Value) (nm : String),
       coerceAbiValue (.mk "uint256[3]" nm []) v = (jsBigInt v).map .vBigInt) ∧
    jsEndsWith "uint256[3]" "[]" = false ∧
    jsStartsWith "uint256[3]" "uint" = true ∧
    coerceAbiValue (.mk "uint256[3]" "a" []) (.vArr [.vNum 1, .vNum 2])
      = .error bigIntErrMsg := by
  refine ⟨?_, rfl, rfl, rfl⟩
  intro v nm
  exact coerceAbiValue_intType (.mk "uint256[3]" nm []) v rfl (Or.inl rfl)

/-- C4 (confirmed): flattening an expandable tuple returns the flattened
fields of component 0 through component N-1 concatenated in that
left-to-right order (the collectChildren recursion), the total field
count is the sum over components of each component's own flattened field
count, a tuple with an empty components array flattens to the empty field
list, and reconstructing such an empty tuple yields the empty array. -/
theorem c4_flatten_order :
    (∀ (p : AbiParam) (label : String) (path : List Nat),
       isExpandableTuple p = true →
       collectTupleFields p label path
         = collectChildren (fun c lb pth => collectTupleFields c lb pth)
             p.components label path 0) ∧
    (∀ (p : AbiParam) (label : String) (path : List Nat),
       isExpandableTuple p = true →
       (collectTupleFields p label path).length
         = (mapWithIdx (fun idx c =>
             (collectTupleFields c
               (label ++ "." ++ jsOrName c.name ("item" ++ Nat.repr idx))
               (path ++ [idx])).length) 0 p.components).sum) ∧
    (∀ (t nm label : String) (path : List Nat),
       isExpandableTuple (.mk t nm []) = true →
       collectTupleFields (.mk t nm []) label path = []) ∧
    (∀ (t nm : String) (i : Nat) (d : String → String) (path : List Nat),
       isExpandableTuple (.mk t nm []) = true →
       buildTupleValueFromDraft (.mk t nm []) i d path = .vArr []) := by
  refine ⟨fun p label path h => collectTupleFields_expandable p label path h, ?_, ?_, ?_⟩
  · intro p label path h
    rw [collectTupleFields_expandable p label path h]
    exact collectChildren_length _ p.components label path 0
  · intro t nm label path h
    rw [collectTupleFields_expandable _ label path h]
    rfl
  · intro t nm i d path h
    rw [buildTupleValueFromDraft_expandable _ i d path h]
    rfl

/-- C4 witness: the order/count equations at a nested two-level tuple and
the empty-tuple cases at the literal tuple type. -/
theorem c4_flatten_order_witness :
    (isExpandableTuple (.mk "tuple" "o"
        [.mk "tuple" "inr" [.mk "uint8" "a" [], .mk "bool" "" []], .mk "address" "to" []]) = true ∧
     collectTupleFields (.mk "tuple" "o"
        [.mk "tuple" "inr" [.mk "uint8" "a" [], .mk "bool" "" []], .mk "address" "to" []]) "arg0" []
       = collectChildren (fun c lb pth => collectTupleFields c lb pth)
           [AbiParam.mk "tuple" "inr" [.mk "uint8" "a" [], .mk "bool" "" []],
            AbiParam.mk "address" "to" []] "arg0" [] 0 ∧
     (collectTupleFields (.mk "tuple" "o"
        [.mk "tuple" "inr" [.mk "uint8" "a" [], .mk "bool" "" []], .mk "address" "to" []]) "arg0" []).length = 3) ∧
    (collectTupleFields (.mk "tuple" "e" []) "x" [] = [] ∧
     buildTupleValueFromDraft (.mk "tuple" "e" []) 0 (fun _ => "") [] = .vArr []) :=
  ⟨⟨rfl,
    c4_flatten_order.1 (.mk "tuple" "o"
      [.mk "tuple" "inr" [.mk "uint8" "a" [], .mk "bool" "" []], .mk "address" "to" []]) "arg0" [] rfl,
    rfl⟩,
   ⟨c4_flatten_order.2.2.1 "tuple" "e" "x" [] rfl,
    c4_flatten_order.2.2.2 "tuple" "e" 0 (fun _ => "") [] rfl⟩⟩

/-- C6 (confirmed): address coercion on a string passing the 40-hex-digit
shape check succeeds and returns the trim-free lowercasing of the input,
which still passes the shape check and contains no uppercase letters,
while any 0x-prefixed all-hex body of the wrong length fails with the
invalid-address error. -/
theorem c6_address_normalization :
    (∀ (s nm : String), isAddressLike s = true →
       coerceAbiValue (.mk "address" nm []) (.vStr s) = .ok (.vStr (normalizeAddress s)) ∧
       normalizeAddress s = jsToLower s ∧
       isAddressLike (normalizeAddress s) = true ∧
       (∀ c ∈ (normalizeAddress s).data, ¬(65 ≤ c.toNat ∧ c.toNat ≤ 90))) ∧
    (∀ (body : List Char) (nm : String), body.all isHexDigitChar = true →
       body.length ≠ 40 →
       coerceAbiValue (.mk "address" nm []) (.vStr ⟨'0' :: 'x' :: body⟩)
         = .error "Invalid address input.") := by
  constructor
  · intro s nm h
    refine ⟨?_, normalizeAddress_of_addressLike h, ?_, ?_⟩
    · rw [coerceAbiValue_addressType (.mk "address" nm []) rfl]
      simp only [h, if_true]
    · rw [normalizeAddress_of_addressLike h]
      exact isAddressLike_toLower h
    · rw [normalizeAddress_of_addressLike h]
      exact isAddressLike_lowercase h
  · intro body nm hall hlen
    rw [coerceAbiValue_addressType (.mk "address" nm []) rfl]
    have hbad : isAddressLike ⟨'0' :: 'x' :: body⟩ = false := by
      show (body.length == 40 && body.all isHexDigitChar) = false
      have : (body.length == 40) = false := by
        simp only [beq_eq_false_iff_ne, ne_eq]
        exact hlen
      rw [this]
      rfl
    simp only [hbad, Bool.false_eq_true, if_false]

/-- C6 witness: the success case at a mixed-case address and the failure
case at a three-hex-digit body. -/
theorem c6_address_normalization_witness :
    (isAddressLike "0xABCDEF0123456789ABCDEF0123456789ABCDEF01" = true ∧
     coerceAbiValue (.mk "address" "to" [])
         (.vStr "0xABCDEF0123456789ABCDEF0123456789ABCDEF01")
       = .ok (.vStr "0xabcdef0123456789abcdef0123456789abcdef01") ∧
     isAddressLike "0xabcdef0123456789abcdef0123456789abcdef01" = true) ∧
    (List.all ['b', 'a', 'd'] isHexDigitChar = true ∧
     List.length ['b', 'a', 'd'] ≠ 40 ∧
     coerceAbiValue (.mk "address" "to" []) (.vStr ⟨'0' :: 'x' :: ['b', 'a', 'd']⟩)
       = .error "Invalid address input.") := by
  refine ⟨⟨rfl, ?_, rfl⟩, by decide, by decide,
    c6_address_normalization.2 ['b', 'a', 'd'] "to" (by decide) (by decide)⟩
  have := (c6_address_normalization.1 "0xABCDEF0123456789ABCDEF0123456789ABCDEF01" "to" rfl).1
  rw [this]
  rfl

/-- C8 (confirmed): coercion is idempotent on its own scalar outputs: when
the parameter routes to the address, bool or integer branch and coercion
succeeds with w, coercing w again succeeds with the same w. -/
theorem c8_coerce_idempotent :
    ∀ (p : AbiParam) (v w : Value),
      (p.type = "address" ∨ p.type = "bool" ∨
        ((jsStartsWith p.type "uint" = true ∨ jsStartsWith p.type "int" = true) ∧
          jsEndsWith p.type "[]" = false)) →
      coerceAbiValue p v = .ok w → coerceAbiValue p w = .ok w := by
  intro p v w htype h
  rcases htype with ht | ht | ⟨hint, har⟩
  · cases v with
    | vStr s =>
      rw [coerce_address_vStr p ht s] at h
      by_cases hs : isAddressLike s = true
      · rw [if_pos hs] at h
        injection h with hw
        have h2 : isAddressLike (normalizeAddress s) = true := by
          rw [normalizeAddress_of_addressLike hs]
          exact isAddressLike_toLower hs
        rw [← hw, coerce_address_vStr p ht (normalizeAddress s), if_pos h2,
          normalizeAddress_idem hs]
      · rw [if_neg hs] at h
        exact Except.noConfusion h
    | vUndefined => rw [coerceAbiValue_addressType p ht] at h; exact Except.noConfusion h
    | vNull => rw [coerceAbiValue_addressType p ht] at h; exact Except.noConfusion h
    | vBool b => rw [coerceAbiValue_addressType p ht] at h; exact Except.noConfusion h
    | vNum n => rw [coerceAbiValue_addressType p ht] at h; exact Except.noConfusion h
    | vBigInt n => rw [coerceAbiValue_addressType p ht] at h; exact Except.noConfusion h
    | vArr xs => rw [coerceAbiValue_addressType p ht] at h; exact Except.noConfusion h
    | vObj fs => rw [coerceAbiValue_addressType p ht] at h; exact Except.noConfusion h
  · cases v with
    | vBool b =>
      rw [coerce_bool_vBool p ht b] at h
      injection h with hw
      rw [← hw, coerce_bool_vBool p ht b]
    | vStr s =>
      rw [coerce_bool_vStr p ht s] at h
      by_cases h1 : jsToLower s = "true"
      · rw [if_pos h1] at h
        injection h with hw
        rw [← hw, coerce_bool_vBool p ht true]
      · rw [if_neg h1] at h
        by_cases h2 : jsToLower s = "false"
        · rw [if_pos h2] at h
          injection h with hw
          rw [← hw, coerce_bool_vBool p ht false]
        · rw [if_neg h2] at h
          exact Except.noConfusion h
    | vUndefined => rw [coerceAbiValue_boolType p ht] at h; exact Except.noConfusion h
    | vNull => rw [coerceAbiValue_boolType p ht] at h; exact Except.noConfusion h
    | vNum n => rw [coerceAbiValue_boolType p ht] at h; exact Except.noConfusion h
    | vBigInt n => rw [coerceAbiValue_boolType p ht] at h; exact Except.noConfusion h
    | vArr xs => rw [coerceAbiValue_boolType p ht] at h; exact Except.noConfusion h
    | vObj fs => rw [coerceAbiValue_boolType p ht] at h; exact Except.noConfusion h
  · rw [coerceAbiValue_intType p v har hint] at h
    rw [coerceAbiValue_intType p w har hint]
    cases hjs : jsBigInt v with
    | error e => rw [hjs] at h; exact Except.noConfusion h
    | ok n =>
      rw [hjs] at h
      simp only [Except.map] at h
      injection h with hw
      rw [← hw]
      rfl

/-- C8 witness: idempotence applied to the three scalar branches at
concrete inputs. -/
theorem c8_coerce_idempotent_witness :
    ((AbiParam.mk "address" "a" []).type = "address" ∨
      (AbiParam.mk "address" "a" []).type = "bool" ∨
      ((jsStartsWith (AbiParam.mk "address" "a" []).type "uint" = true ∨
        jsStartsWith (AbiParam.mk "address" "a" []).type "int" = true) ∧
        jsEndsWith (AbiParam.mk "address" "a" []).type "[]" = false)) ∧
    coerceAbiValue (.mk "address" "a" [])
        (.vStr "0xABCDEF0123456789ABCDEF0123456789ABCDEF01")
      = .ok (.vStr "0xabcdef0123456789abcdef0123456789abcdef01") ∧
    coerceAbiValue (.mk "address" "a" [])
        (.vStr "0xabcdef0123456789abcdef0123456789abcdef01")
      = .ok (.vStr "0xabcdef0123456789abcdef0123456789abcdef01") ∧
    coerceAbiValue (.mk "bool" "b" []) (.vBool true) = .ok (.vBool true) ∧
    coerceAbiValue (.mk "uint256" "u" []) (.vBigInt 7) = .ok (.vBigInt 7) :=
  ⟨Or.inl rfl, rfl,
   c8_coerce_idempotent (.mk "address" "a" [])
     (.vStr "0xABCDEF0123456789ABCDEF0123456789ABCDEF01")
     (.vStr "0xabcdef0123456789abcdef0123456789abcdef01") (Or.inl rfl) rfl,
   c8_coerce_idempotent (.mk "bool" "b" []) (.vStr "TRUE") (.vBool true)
     (Or.inr (Or.inl rfl)) rfl,
   c8_coerce_idempotent (.mk "uint256" "u" []) (.vStr "7") (.vBigInt 7)
     (Or.inr (Or.inr ⟨Or.inl rfl, rfl⟩)) rfl⟩

/-- C2 counterexample: the claim asserts per-file failure isolation, with
a sibling well-formed file in the same selection still imported when one
file fails; in fact a selection of a failing file (invalid address) plus
a well-formed file imports nothing at all and reports the single error,
although the well-formed file imports fine on its own. -/
theorem c2_counterexample :
    onImportFiles []
        [⟨"bad.json", "\x7b\"contracts\":[\x7b\"name\":\"A\",\"address\":\"0xBAD\",\"abi\":[]\x7d]\x7d"⟩,
         ⟨"good.json", "\x7b\"name\":\"G\",\"address\":\"0xAAAAAAAAAAAAAAAAAAAAAAAAAAAAAAAAAAAAAAAA\",\"abi\":[]\x7d"⟩]
      = ([], some "Invalid address in import file.") ∧
    (onImportFiles []
        [⟨"good.json", "\x7b\"name\":\"G\",\"address\":\"0xAAAAAAAAAAAAAAAAAAAAAAAAAAAAAAAAAAAAAAAA\",\"abi\":[]\x7d"⟩]).2
      = none ∧
    (onImportFiles []
        [⟨"good.json", "\x7b\"name\":\"G\",\"address\":\"0xAAAAAAAAAAAAAAAAAAAAAAAAAAAAAAAAAAAAAAAA\",\"abi\":[]\x7d"⟩]).1.map
        (fun e => e.address)
      = ["0xaaaaaaaaaaaaaaaaaaaaaaaaaaaaaaaaaaaaaaaa"] :=
  ⟨rfl, rfl, rfl⟩

theorem importAllFiles_err :
    ∀ (files : List ImportFile) (f : ImportFile), f ∈ files →
      (∃ e, parseImportFile f.text f.fileName = .error e) →
      ∃ e2, importAllFiles files = .error e2 := by
  intro files
  induction files with
  | nil => intro f hf; cases hf
  | cons g gs ih =>
    intro f hf he
    obtain ⟨e, he⟩ := he
    rw [List.mem_cons] at hf
    rcases hf with rfl | hf
    · refine ⟨e, ?_⟩
      unfold importAllFiles
      rw [he]
      rfl
    · cases hg : parseImportFile g.text g.fileName with
      | error e2 =>
        refine ⟨e2, ?_⟩
        unfold importAllFiles
        rw [hg]
        rfl
      | ok es =>
        obtain ⟨e2, h2⟩ := ih f hf ⟨e, he⟩
        refine ⟨e2, ?_⟩
        unfold importAllFiles
        rw [hg]
        show (importAllFiles gs).bind _ = _
        rw [h2]
        rfl

/-- C2 (amended): bulk import does not isolate failures per file: the
whole multi-file selection is parsed inside one try block, so when any
selected file fails to parse, no contracts from any file in the selection
are added (the contract list is unchanged, contracts parsed before the
failure included) and a single import error is reported. -/
theorem c2_import_aborts :
    ∀ (prev : List ContractEntry) (files : List ImportFile) (f : ImportFile),
      f ∈ files → (∃ e, parseImportFile f.text f.fileName = .error e) →
      (onImportFiles prev files).1 = prev ∧
      (∃ e2, (onImportFiles prev files).2 = some e2) := by
  intro prev files f hf he
  obtain ⟨e2, h2⟩ := importAllFiles_err files f hf he
  unfold onImportFiles
  rw [h2]
  exact ⟨rfl, e2, rfl⟩

/-- C2 witness: the amended abort behaviour applied to a failing file next
to a well-formed sibling, starting from a non-empty workspace. -/
theorem c2_import_aborts_witness :
    ((⟨"bad.json", "\x7b\"contracts\":[\x7b\"name\":\"A\",\"address\":\"0xBAD\",\"abi\":[]\x7d]\x7d"⟩ : ImportFile) ∈
       ([⟨"bad.json", "\x7b\"contracts\":[\x7b\"name\":\"A\",\"address\":\"0xBAD\",\"abi\":[]\x7d]\x7d"⟩,
         ⟨"good.json", "\x7b\"name\":\"G\",\"address\":\"0xAAAAAAAAAAAAAAAAAAAAAAAAAAAAAAAAAAAAAAAA\",\"abi\":[]\x7d"⟩] : List ImportFile) ∧
     parseImportFile "\x7b\"contracts\":[\x7b\"name\":\"A\",\"address\":\"0xBAD\",\"abi\":[]\x7d]\x7d" "bad.json"
       = .error "Invalid address in import file.") ∧
    (onImportFiles [⟨.vStr "old", "0xaaaaaaaaaaaaaaaaaaaaaaaaaaaaaaaaaaaaaaaa", .vStr "[]", .vArr []⟩]
        [⟨"bad.json", "\x7b\"contracts\":[\x7b\"name\":\"A\",\"address\":\"0xBAD\",\"abi\":[]\x7d]\x7d"⟩,
         ⟨"good.json", "\x7b\"name\":\"G\",\"address\":\"0xAAAAAAAAAAAAAAAAAAAAAAAAAAAAAAAAAAAAAAAA\",\"abi\":[]\x7d"⟩]).1
      = [⟨.vStr "old", "0xaaaaaaaaaaaaaaaaaaaaaaaaaaaaaaaaaaaaaaaa", .vStr "[]", .vArr []⟩] ∧
    (∃ e2, (onImportFiles [⟨.vStr "old", "0xaaaaaaaaaaaaaaaaaaaaaaaaaaaaaaaaaaaaaaaa", .vStr "[]", .vArr []⟩]
        [⟨"bad.json", "\x7b\"contracts\":[\x7b\"name\":\"A\",\"address\":\"0xBAD\",\"abi\":[]\x7d]\x7d"⟩,
         ⟨"good.json", "\x7b\"name\":\"G\",\"address\":\"0xAAAAAAAAAAAAAAAAAAAAAAAAAAAAAAAAAAAAAAAA\",\"abi\":[]\x7d"⟩]).2 = some e2) :=
  ⟨⟨List.mem_cons_self _ _, rfl⟩,
   (c2_import_aborts [⟨.vStr "old", "0xaaaaaaaaaaaaaaaaaaaaaaaaaaaaaaaaaaaaaaaa", .vStr "[]", .vArr []⟩]
     [⟨"bad.json", "\x7b\"contracts\":[\x7b\"name\":\"A\",\"address\":\"0xBAD\",\"abi\":[]\x7d]\x7d"⟩,
      ⟨"good.json", "\x7b\"name\":\"G\",\"address\":\"0xAAAAAAAAAAAAAAAAAAAAAAAAAAAAAAAAAAAAAAAA\",\"abi\":[]\x7d"⟩]
     ⟨"bad.json", "\x7b\"contracts\":[\x7b\"name\":\"A\",\"address\":\"0xBAD\",\"abi\":[]\x7d]\x7d"⟩
     (List.mem_cons_self _ _)
     ⟨"Invalid address in import file.", rfl⟩).1,
   (c2_import_aborts [⟨.vStr "old", "0xaaaaaaaaaaaaaaaaaaaaaaaaaaaaaaaaaaaaaaaa", .vStr "[]", .vArr []⟩]
     [⟨"bad.json", "\x7b\"contracts\":[\x7b\"name\":\"A\",\"address\":\"0xBAD\",\"abi\":[]\x7d]\x7d"⟩,
      ⟨"good.json", "\x7b\"name\":\"G\",\"address\":\"0xAAAAAAAAAAAAAAAAAAAAAAAAAAAAAAAAAAAAAAAA\",\"abi\":[]\x7d"⟩]
     ⟨"bad.json", "\x7b\"contracts\":[\x7b\"name\":\"A\",\"address\":\"0xBAD\",\"abi\":[]\x7d]\x7d"⟩
     (List.mem_cons_self _ _)
     ⟨"Invalid address in import file.", rfl⟩).2⟩

/-- C7 (confirmed): draft keys argIndex:pathText are collision-free across
distinct argument index / leaf path pairs, and updateTupleDraftInput
changes only the written key of the written signature: every other key of
that signature and every key of every other signature read back
unchanged. -/
theorem c7_draft_isolation :
    (∀ (i1 i2 : Nat) (p1 p2 : List Nat), ¬(i1 = i2 ∧ p1 = p2) →
       draftKey i1 (pathTextOf p1) ≠ draftKey i2 (pathTextOf p2)) ∧
    (∀ (prev : ContractUI) (sig : String) (argIndex : Nat) (param : AbiParam)
       (pathText value sig2 key2 : String),
       sig2 ≠ sig ∨ key2 ≠ draftKey argIndex pathText →
       (updateTupleDraftInput prev sig argIndex param pathText value).tupleDrafts sig2 key2
         = prev.tupleDrafts sig2 key2) := by
  constructor
  · intro i1 i2 p1 p2 hne heq
    exact hne (draftKey_inj heq)
  · intro prev sig argIndex param pathText value sig2 key2 hdiff
    show (if sig2 = sig
          then (if key2 = draftKey argIndex pathText then value
                else prev.tupleDrafts sig key2)
          else prev.tupleDrafts sig2 key2) = prev.tupleDrafts sig2 key2
    by_cases hs : sig2 = sig
    · rcases hdiff with h | h
      · exact absurd hs h
      · rw [if_pos hs, if_neg h, hs]
    · rw [if_neg hs]

/-- C7 witness: key collision-freedom at argument 0 paths 0 and 1 and at
arguments 1 and 12 (where naive string concatenation could collide), and
the frame property on a concrete store. -/
theorem c7_draft_isolation_witness :
    (¬((0 : Nat) = 0 ∧ ([0] : List Nat) = [1]) ∧
     draftKey 0 (pathTextOf [0]) ≠ draftKey 0 (pathTextOf [1])) ∧
    (¬((1 : Nat) = 12 ∧ ([2, 3] : List Nat) = [3]) ∧
     draftKey 1 (pathTextOf [2, 3]) ≠ draftKey 12 (pathTextOf [3])) ∧
    (("g()" : String) ≠ "f(tuple)" ∨ ("0:1" : String) ≠ draftKey 0 "0") ∧
    (updateTupleDraftInput ⟨fun _ => [], fun _ _ => ""⟩ "f(tuple)" 0
       (.mk "tuple" "t" [.mk "uint256" "x" []]) "0" "55").tupleDrafts "g()" "0:0" = "" :=
  ⟨⟨by simp, c7_draft_isolation.1 0 0 [0] [1] (by simp)⟩,
   ⟨by simp, c7_draft_isolation.1 1 12 [2, 3] [3] (by simp)⟩,
   Or.inl (by decide),
   c7_draft_isolation.2 ⟨fun _ => [], fun _ _ => ""⟩ "f(tuple)" 0
     (.mk "tuple" "t" [.mk "uint256" "x" []]) "0" "55" "g()" "0:0"
     (Or.inl (by decide))⟩

/-- C9 (confirmed): loadSession is a total function; a missing or
unparsable persisted document yields the default state; on a parsed
object document whose contracts field is an array, the loaded contracts
are exactly the per-entry filterMap of the item parser, so an entry whose
address fails the shape check or whose abiText does not parse is dropped
while every other entry in the same document is still loaded. -/
theorem c9_loadSession_total :
    (loadSession none = defaultSession) ∧
    (∀ s, jsonParse s = none → loadSession (some s) = defaultSession) ∧
    (∀ (fields : List (String × Value)) (items : List Value),
       jsField fields "contracts" = .vArr items →
       (loadSessionParsed (.vObj fields)).contracts = items.filterMap parseContractItem) ∧
    (∀ (pre post : List Value) (bad : Value), parseContractItem bad = none →
       (pre ++ bad :: post).filterMap parseContractItem
         = (pre ++ post).filterMap parseContractItem) := by
  refine ⟨rfl, ?_, ?_, ?_⟩
  · intro s h
    show (match jsonParse s with
          | none => defaultSession
          | some parsed => loadSessionParsed parsed) = defaultSession
    rw [h]
  · intro fields items h
    unfold loadSessionParsed
    rw [show jsGetProp (.vObj fields) "contracts" = .ok (jsField fields "contracts") from rfl, h]
    rfl
  · intro pre post bad h
    rw [List.filterMap_append, List.filterMap_append]
    simp only [List.filterMap_cons, h]

/-- C9 witness: the default on an unparsable document, the filterMap shape
on a two-entry document, and the drop of a bad entry (a primitive item
whose address read is undefined) between two good entries. -/
theorem c9_loadSession_total_witness :
    (jsonParse "\x7boops" = none ∧ loadSession (some "\x7boops") = defaultSession) ∧
    (jsField [("contracts",
        Value.vArr [.vStr "x",
          .vObj [("address", .vStr "0xAAAAAAAAAAAAAAAAAAAAAAAAAAAAAAAAAAAAAAAA"), ("abiText", .vStr "[]")]])]
        "contracts"
      = .vArr [.vStr "x",
          .vObj [("address", .vStr "0xAAAAAAAAAAAAAAAAAAAAAAAAAAAAAAAAAAAAAAAA"), ("abiText", .vStr "[]")]] ∧
     (loadSessionParsed (.vObj [("contracts",
        Value.vArr [.vStr "x",
          .vObj [("address", .vStr "0xAAAAAAAAAAAAAAAAAAAAAAAAAAAAAAAAAAAAAAAA"), ("abiText", .vStr "[]")]])])).contracts
       = [{ name := .vStr "contract",
            address := "0xaaaaaaaaaaaaaaaaaaaaaaaaaaaaaaaaaaaaaaaa",
            abiText := .vStr "[]", abi := .vArr [] }]) ∧
    (parseContractItem (.vStr "x") = none ∧
     ([Value.vObj [("address", .vStr "0xAAAAAAAAAAAAAAAAAAAAAAAAAAAAAAAAAAAAAAAA"), ("abiText", .vStr "[]")],
       Value.vStr "x",
       Value.vObj [("address", .vStr "0xBBBBBBBBBBBBBBBBBBBBBBBBBBBBBBBBBBBBBBBB"), ("abiText", .vStr "[]")]].filterMap
        parseContractItem)
       = ([Value.vObj [("address", .vStr "0xAAAAAAAAAAAAAAAAAAAAAAAAAAAAAAAAAAAAAAAA"), ("abiText", .vStr "[]")],
           Value.vObj [("address", .vStr "0xBBBBBBBBBBBBBBBBBBBBBBBBBBBBBBBBBBBBBBBB"), ("abiText", .vStr "[]")]].filterMap
            parseContractItem)) :=
  ⟨⟨rfl, c9_loadSession_total.2.1 "\x7boops" rfl⟩,
   ⟨rfl, by
      have := c9_loadSession_total.2.2.1
        [("contracts",
          Value.vArr [.vStr "x",
            .vObj [("address", .vStr "0xAAAAAAAAAAAAAAAAAAAAAAAAAAAAAAAAAAAAAAAA"), ("abiText", .vStr "[]")]])]
        [.vStr "x",
          .vObj [("address", .vStr "0xAAAAAAAAAAAAAAAAAAAAAAAAAAAAAAAAAAAAAAAA"), ("abiText", .vStr "[]")]]
        rfl
      rw [this]
      rfl⟩,
   ⟨rfl, c9_loadSession_total.2.2.2
      [Value.vObj [("address", .vStr "0xAAAAAAAAAAAAAAAAAAAAAAAAAAAAAAAAAAAAAAAA"), ("abiText", .vStr "[]")]]
      [Value.vObj [("address", .vStr "0xBBBBBBBBBBBBBBBBBBBBBBBBBBBBBBBBBBBBBBBB"), ("abiText", .vStr "[]")]]
      (.vStr "x") rfl⟩⟩

end LocalEthScan
